import Mathlib

set_option maxHeartbeats 1000000

namespace Onekey

/-!
Shallow embedding of the Onekey repository (Python) for specification
verification.  Each definition translates one function of the source;
network responses, filesystem contents and raised exceptions are made
explicit as data.
-/

/-! ## Branch resolution (`common/main_func.py`)

`fetch_branch_info` returns either `None` (failed request, non-200 status,
or any exception — all are caught and logged) or the parsed JSON body.
We model the JSON body shallowly by the only fields `get_latest_repo_info`
reads: the truthiness of `r_json.get('commit')` and the nested
`r_json['commit']['commit']['author']['date']` value, which may be absent
(in Python an absent nested field raises `KeyError` inside
`get_latest_repo_info`, which has no handler for it). -/

structure CommitInfo where
  /-- The nested `commit.commit.author.date` field; `none` models the field
  being absent, in which case the Python subscription raises `KeyError`. -/
  authorDate : Option String
deriving Repr, DecidableEq

structure BranchResp where
  /-- `none` models a response whose `commit` key is absent or falsy. -/
  commit : Option CommitInfo
deriving Repr, DecidableEq

/-- The Python test `if not latest_date or commit_date > latest_date:`.
`latest_date` is `None` initially; `not latest_date` is also true for the
empty string (Python truthiness). -/
def updateCond (latest : Option String) (d : String) : Bool :=
  match latest with
  | none => true
  | some l => l = "" || decide (l < d)

/-- The `for repo, r_json in zip(repos, results):` loop of
`get_latest_repo_info`, lines 63-71 of `common/main_func.py`, with the
accumulator `(latest_date, selected_repo)` made explicit.  A response whose
`commit` object lacks the nested author date raises `KeyError`
(modelled as `.error ()`); failed responses and responses without a
(truthy) `commit` key are skipped. -/
def glriLoop : List (String × Option BranchResp) → Option String → Option String →
    Except Unit (Option String × Option String)
  | [], latest, sel => .ok (sel, latest)
  | (repo, r) :: rest, latest, sel =>
    match r with
    | none => glriLoop rest latest sel
    | some resp =>
      match resp.commit with
      | none => glriLoop rest latest sel
      | some ci =>
        match ci.authorDate with
        | none => .error ()
        | some d =>
          if updateCond latest d then glriLoop rest (some d) (some repo)
          else glriLoop rest latest sel

/-- `get_latest_repo_info` (`common/main_func.py`, lines 52-71): each repo is
paired with the outcome of its `fetch_branch_info` call, and the loop
returns `(selected_repo, latest_date)`. -/
def get_latest_repo_info (repos : List String) (results : List (Option BranchResp)) :
    Except Unit (Option String × Option String) :=
  glriLoop (repos.zip results) none none

/-- A candidate qualifies: the branch lookup succeeded and carries full
commit metadata with a (nonempty, ISO-8601) author date. -/
def wellFormed : Option BranchResp → Bool
  | some { commit := some { authorDate := some d } } => d ≠ ""
  | _ => false

/-- A candidate the loop silently skips: failed lookup, or no (truthy)
`commit` key in the response. -/
def excludedResp : Option BranchResp → Bool
  | none => true
  | some { commit := none } => true
  | _ => false

/-- The response shape on which the Python loop raises `KeyError`: a
`commit` object present but the nested author date absent. -/
def keyErrShape : Option BranchResp → Bool
  | some { commit := some { authorDate := none } } => true
  | _ => false

/-- The qualifying candidates, in input order, with their author dates. -/
def candDates (pairs : List (String × Option BranchResp)) : List (String × String) :=
  pairs.filterMap fun p =>
    match p.2 with
    | some { commit := some { authorDate := some d } } => some (p.1, d)
    | _ => none

/-- The selection fold, on qualifying candidates only: keep the current
best unless the new date compares strictly greater (or the current best
date is empty, Python falsiness). -/
def pickBest : List (String × String) → String × String → String × String
  | [], best => best
  | (r, d) :: rest, best =>
    if updateCond (some best.2) d then pickBest rest (r, d) else pickBest rest best

theorem glriLoop_filter (pairs : List (String × Option BranchResp)) (latest sel : Option String) :
    glriLoop pairs latest sel =
      glriLoop (pairs.filter fun p => !excludedResp p.2) latest sel := by
  induction pairs generalizing latest sel with
  | nil => rfl
  | cons p rest ih =>
    obtain ⟨repo, r⟩ := p
    rcases r with _ | ⟨_ | ⟨_ | d⟩⟩
    · simpa [glriLoop, excludedResp] using ih latest sel
    · simpa [glriLoop, excludedResp] using ih latest sel
    · simp [glriLoop, excludedResp, List.filter_cons]
    · by_cases h : updateCond latest d = true
      · simp only [glriLoop, h, if_pos, List.filter_cons, excludedResp, Bool.not_false,
          if_true]
        exact ih (some d) (some repo)
      · simp only [glriLoop, h, if_neg, List.filter_cons, excludedResp, Bool.not_false,
          if_true, Bool.false_eq_true, not_false_eq_true]
        exact ih latest sel

theorem glriLoop_ok (pairs : List (String × Option BranchResp)) (latest sel : Option String)
    (h : ∀ p ∈ pairs, keyErrShape p.2 = false) :
    ∃ v, glriLoop pairs latest sel = .ok v := by
  induction pairs generalizing latest sel with
  | nil => exact ⟨(sel, latest), rfl⟩
  | cons p rest ih =>
    obtain ⟨repo, r⟩ := p
    have hrest : ∀ p ∈ rest, keyErrShape p.2 = false := fun q hq => h q (List.mem_cons_of_mem _ hq)
    rcases r with _ | ⟨_ | ⟨_ | d⟩⟩
    · simpa [glriLoop] using ih latest sel hrest
    · simpa [glriLoop] using ih latest sel hrest
    · exact absurd (h (repo, some ⟨some ⟨none⟩⟩) (List.mem_cons_self _ _)) (by simp [keyErrShape])
    · by_cases hc : updateCond latest d = true
      · simpa [glriLoop, hc] using ih (some d) (some repo) hrest
      · simp only [Bool.not_eq_true] at hc
        simpa [glriLoop, hc] using ih latest sel hrest

theorem glriLoop_pickBest (pairs : List (String × Option BranchResp)) (r0 d0 : String)
    (h : ∀ p ∈ pairs, keyErrShape p.2 = false) :
    glriLoop pairs (some d0) (some r0) =
      .ok (some (pickBest (candDates pairs) (r0, d0)).1,
           some (pickBest (candDates pairs) (r0, d0)).2) := by
  induction pairs generalizing r0 d0 with
  | nil => rfl
  | cons p rest ih =>
    obtain ⟨repo, r⟩ := p
    have hrest : ∀ p ∈ rest, keyErrShape p.2 = false := fun q hq => h q (List.mem_cons_of_mem _ hq)
    rcases r with _ | ⟨_ | ⟨_ | d⟩⟩
    · simpa [glriLoop, candDates] using ih r0 d0 hrest
    · simpa [glriLoop, candDates] using ih r0 d0 hrest
    · exact absurd (h (repo, some ⟨some ⟨none⟩⟩) (List.mem_cons_self _ _)) (by simp [keyErrShape])
    · by_cases hc : updateCond (some d0) d = true
      · simpa [glriLoop, candDates, pickBest, hc] using ih repo d hrest
      · simp only [Bool.not_eq_true] at hc
        simpa [glriLoop, candDates, pickBest, hc] using ih r0 d0 hrest

theorem glriLoop_start (pairs : List (String × Option BranchResp))
    (h : ∀ p ∈ pairs, keyErrShape p.2 = false) :
    glriLoop pairs none none =
      match candDates pairs with
      | [] => .ok (none, none)
      | c :: cs => .ok (some (pickBest cs c).1, some (pickBest cs c).2) := by
  induction pairs with
  | nil => rfl
  | cons p rest ih =>
    obtain ⟨repo, r⟩ := p
    have hrest : ∀ p ∈ rest, keyErrShape p.2 = false := fun q hq => h q (List.mem_cons_of_mem _ hq)
    rcases r with _ | ⟨_ | ⟨_ | d⟩⟩
    · simpa [glriLoop, candDates] using ih hrest
    · simpa [glriLoop, candDates] using ih hrest
    · exact absurd (h (repo, some ⟨some ⟨none⟩⟩) (List.mem_cons_self _ _)) (by simp [keyErrShape])
    · have : updateCond none d = true := rfl
      simp only [glriLoop, this, if_pos, candDates, List.filterMap_cons]
      exact glriLoop_pickBest rest repo d hrest

/-- `pickBest` returns the first maximum: the kept candidates split around
the result, everything before it strictly below, everything after it at
most equal.  Requires all dates nonempty (the Python falsiness test
`not latest_date` would otherwise also fire on an empty string). -/
theorem pickBest_firstMax (cands : List (String × String)) (best : String × String)
    (hb : best.2 ≠ "") (hc : ∀ p ∈ cands, p.2 ≠ "") :
    ∃ pre suf,
      best :: cands = pre ++ (pickBest cands best) :: suf ∧
      (∀ p ∈ pre, p.2 < (pickBest cands best).2) ∧
      (∀ p ∈ suf, p.2 ≤ (pickBest cands best).2) := by
  induction cands generalizing best with
  | nil => exact ⟨[], [], rfl, by simp, by simp⟩
  | cons q rest ih =>
    obtain ⟨r, d⟩ := q
    have hd : d ≠ "" := hc (r, d) (List.mem_cons_self _ _)
    have hrest : ∀ p ∈ rest, p.2 ≠ "" := fun p hp => hc p (List.mem_cons_of_mem _ hp)
    by_cases hcond : updateCond (some best.2) d = true
    · have hlt : best.2 < d := by
        simp only [updateCond, Bool.or_eq_true, decide_eq_true_eq] at hcond
        rcases hcond with h | h
        · exact absurd h hb
        · exact h
      obtain ⟨pre', suf', hsplit, hpre, hsuf⟩ := ih (r, d) hd hrest
      have hpick : pickBest ((r, d) :: rest) best = pickBest rest (r, d) := by
        simp [pickBest, hcond]
      rw [hpick]
      refine ⟨best :: pre', suf', by simp [hsplit], ?_, hsuf⟩
      intro p hp
      rcases List.mem_cons.mp hp with rfl | hp'
      · have hdle : d ≤ (pickBest rest (r, d)).2 := by
          rcases pre' with _ | ⟨q', pre''⟩
          · simp only [List.nil_append, List.cons.injEq] at hsplit
            exact le_of_eq (congrArg Prod.snd hsplit.1)
          · simp only [List.cons_append, List.cons.injEq] at hsplit
            have hq := hpre q' (List.mem_cons_self _ _)
            rw [← hsplit.1] at hq
            exact le_of_lt hq
        exact lt_of_lt_of_le hlt hdle
      · exact hpre p hp'
    · have hle : d ≤ best.2 := by
        simp only [updateCond, Bool.or_eq_true, decide_eq_true_eq] at hcond
        push_neg at hcond
        exact le_of_not_lt hcond.2
      obtain ⟨pre', suf', hsplit, hpre, hsuf⟩ := ih best hb hrest
      have hpick : pickBest ((r, d) :: rest) best = pickBest rest best := by
        simp [pickBest, hcond]
      rw [hpick]
      rcases pre' with _ | ⟨q', pre''⟩
      · simp only [List.nil_append, List.cons.injEq] at hsplit
        refine ⟨[], (r, d) :: suf', ?_, by simp, ?_⟩
        · simp [← hsplit.1, ← hsplit.2]
        · intro p hp
          rcases List.mem_cons.mp hp with rfl | hp'
          · exact le_trans hle (le_of_eq (congrArg Prod.snd hsplit.1))
          · exact hsuf p hp'
      · simp only [List.cons_append, List.cons.injEq] at hsplit
        obtain ⟨hq', hrest_split⟩ := hsplit
        have hbest_lt : best.2 < (pickBest rest best).2 := by
          have := hpre q' (List.mem_cons_self _ _)
          rw [← hq'] at this
          exact this
        refine ⟨best :: (r, d) :: pre'', suf',
          by rw [List.cons_append, List.cons_append, ← hrest_split], ?_, hsuf⟩
        intro p hp
        rcases List.mem_cons.mp hp with rfl | hp'
        · exact hbest_lt
        · rcases List.mem_cons.mp hp' with rfl | hp''
          · exact lt_of_le_of_lt hle hbest_lt
          · exact hpre p (List.mem_cons_of_mem _ hp'')

theorem keyErrShape_of_clean (r : Option BranchResp)
    (h : excludedResp r = true ∨ wellFormed r = true) : keyErrShape r = false := by
  rcases r with _ | ⟨_ | ⟨_ | d⟩⟩ <;> simp_all [excludedResp, wellFormed, keyErrShape]

theorem candDates_ne_empty_of_clean (pairs : List (String × Option BranchResp))
    (hclean : ∀ p ∈ pairs, excludedResp p.2 = true ∨ wellFormed p.2 = true) :
    ∀ q ∈ candDates pairs, q.2 ≠ "" := by
  intro q hq
  rw [candDates, List.mem_filterMap] at hq
  obtain ⟨x, hx, hmatch⟩ := hq
  obtain ⟨rep, r⟩ := x
  rcases r with _ | ⟨_ | ⟨_ | d⟩⟩ <;> simp only [Option.some.injEq] at hmatch
  · exact absurd hmatch (by simp)
  · exact absurd hmatch (by simp)
  · exact absurd hmatch (by simp)
  · subst hmatch
    have := hclean (rep, some ⟨some ⟨some d⟩⟩) hx
    simpa [excludedResp, wellFormed] using this

/-- Claim C1: for every list of candidate sources in which each branch
lookup either fails / lacks commit metadata (and is skipped) or returns a
well-formed commit (nonempty ISO-8601 author date), `get_latest_repo_info`
returns `(none, none)` when no candidate qualifies, and otherwise the
qualifying candidate with the lexicographically greatest author date,
ties going to the earliest position in the input order: the list of
qualifying candidates splits around the returned one, all earlier ones
strictly below its date and all later ones at most equal to it. -/
theorem C1_resolve_selects_first_max
    (repos : List String) (results : List (Option BranchResp))
    (hclean : ∀ p ∈ repos.zip results, excludedResp p.2 = true ∨ wellFormed p.2 = true) :
    (candDates (repos.zip results) = [] →
      get_latest_repo_info repos results = .ok (none, none)) ∧
    ∀ c cs, candDates (repos.zip results) = c :: cs →
      ∃ pre best suf,
        c :: cs = pre ++ best :: suf ∧
        get_latest_repo_info repos results = .ok (some best.1, some best.2) ∧
        (∀ p ∈ pre, p.2 < best.2) ∧
        (∀ p ∈ suf, p.2 ≤ best.2) := by
  have hkerr : ∀ p ∈ repos.zip results, keyErrShape p.2 = false :=
    fun p hp => keyErrShape_of_clean p.2 (hclean p hp)
  have hmain := glriLoop_start (repos.zip results) hkerr
  have hne := candDates_ne_empty_of_clean (repos.zip results) hclean
  constructor
  · intro hnil
    rw [hnil] at hmain
    exact hmain
  · intro c cs hcons
    rw [hcons] at hmain
    have hb : c.2 ≠ "" := hne c (hcons ▸ List.mem_cons_self _ _)
    have hcs : ∀ p ∈ cs, p.2 ≠ "" := fun p hp => hne p (hcons ▸ List.mem_cons_of_mem _ hp)
    obtain ⟨pre, suf, hsplit, hpre, hsuf⟩ := pickBest_firstMax cs c hb hcs
    exact ⟨pre, pickBest cs c, suf, hsplit, hmain, hpre, hsuf⟩

/-- Witness for C1, realising the spec scenario: candidates `A` and `B`
with author dates 2024-01-01 and 2024-06-01; resolution picks `B`. -/
theorem C1_resolve_selects_first_max_witness :
    ∃ pre best suf,
      [("A", "2024-01-01T00:00:00Z"), ("B", "2024-06-01T00:00:00Z")] = pre ++ best :: suf ∧
      get_latest_repo_info ["A", "B"]
        [some ⟨some ⟨some "2024-01-01T00:00:00Z"⟩⟩,
         some ⟨some ⟨some "2024-06-01T00:00:00Z"⟩⟩] = .ok (some best.1, some best.2) ∧
      (∀ p ∈ pre, p.2 < best.2) ∧
      (∀ p ∈ suf, p.2 ≤ best.2) :=
  (C1_resolve_selects_first_max ["A", "B"]
      [some ⟨some ⟨some "2024-01-01T00:00:00Z"⟩⟩,
       some ⟨some ⟨some "2024-06-01T00:00:00Z"⟩⟩] (by decide)).2
    ("A", "2024-01-01T00:00:00Z") [("B", "2024-06-01T00:00:00Z")] rfl

/-- Counterexample to claim C2 as stated: a candidate whose response has a
(truthy) `commit` object but lacks the nested author date is not silently
excluded — the Python loop raises `KeyError` (modelled as `.error ()`) and
the whole resolution aborts instead of completing normally. -/
theorem C2_counterexample :
    get_latest_repo_info ["A"] [some ⟨some ⟨none⟩⟩] = .error () ∧
    ∀ v, get_latest_repo_info ["A"] [some ⟨some ⟨none⟩⟩] ≠ .ok v := by
  refine ⟨rfl, fun v h => ?_⟩
  rw [show get_latest_repo_info ["A"] [some ⟨some ⟨none⟩⟩] = .error () from rfl] at h
  exact Except.noConfusion h

/-- Claim C2 as amended: a candidate whose branch lookup failed or whose
response lacks a (truthy) `commit` field is silently excluded — the
resolution completes normally and its result equals the resolution run on
the remaining candidates alone.  (A response carrying a `commit` object
whose nested author date is missing, by contrast, aborts the whole
resolution, as the counterexample shows; the amendment excludes exactly
that case.) -/
theorem C2_amended_silent_exclusion
    (repos : List String) (results : List (Option BranchResp))
    (hkerr : ∀ p ∈ repos.zip results, keyErrShape p.2 = false) :
    (∃ v, get_latest_repo_info repos results = .ok v) ∧
    get_latest_repo_info repos results =
      glriLoop ((repos.zip results).filter fun p => !excludedResp p.2) none none :=
  ⟨glriLoop_ok (repos.zip results) none none hkerr,
   glriLoop_filter (repos.zip results) none none⟩

/-- Witness for the amended C2: one failed candidate and one without a
commit key alongside a well-formed one; resolution completes normally. -/
theorem C2_amended_silent_exclusion_witness :
    (∃ v, get_latest_repo_info ["A", "B", "C"]
        [none, some ⟨none⟩, some ⟨some ⟨some "2024-06-01T00:00:00Z"⟩⟩] = .ok v) ∧
    get_latest_repo_info ["A", "B", "C"]
        [none, some ⟨none⟩, some ⟨some ⟨some "2024-06-01T00:00:00Z"⟩⟩] =
      glriLoop ((["A", "B", "C"].zip
        [none, some ⟨none⟩, some ⟨some ⟨some "2024-06-01T00:00:00Z"⟩⟩]).filter
          fun p => !excludedResp p.2) none none :=
  C2_amended_silent_exclusion ["A", "B", "C"]
    [none, some ⟨none⟩, some ⟨some ⟨some "2024-06-01T00:00:00Z"⟩⟩] (by decide)

/-! ## Association-list maps

Python `dict`s and directories of files are modelled as insertion-ordered
association lists with unique keys: assignment replaces in place or
appends, deletion filters. -/

def alLookup {κ α : Type} [DecidableEq κ] (m : List (κ × α)) (k : κ) : Option α :=
  (m.find? fun kv => kv.1 = k).map (·.2)

def alSet {κ α : Type} [DecidableEq κ] : List (κ × α) → κ → α → List (κ × α)
  | [], k, v => [(k, v)]
  | (k', v') :: rest, k, v =>
    if k' = k then (k', v) :: rest else (k', v') :: alSet rest k v

def alRemove {κ α : Type} [DecidableEq κ] (m : List (κ × α)) (k : κ) : List (κ × α) :=
  m.filter fun kv => kv.1 ≠ k

theorem alLookup_alSet_self {κ α : Type} [DecidableEq κ] (m : List (κ × α)) (k : κ) (v : α) :
    alLookup (alSet m k v) k = some v := by
  induction m with
  | nil => simp [alLookup, alSet, List.find?]
  | cons kv rest ih =>
    obtain ⟨k', v'⟩ := kv
    by_cases h : k' = k
    · subst h
      simp [alLookup, alSet, List.find?]
    · simpa [alLookup, alSet, h, List.find?] using ih

theorem alLookup_alSet_ne {κ α : Type} [DecidableEq κ] (m : List (κ × α)) (k k' : κ) (v : α)
    (h : k' ≠ k) : alLookup (alSet m k v) k' = alLookup m k' := by
  induction m with
  | nil => simp [alLookup, alSet, List.find?, Ne.symm h]
  | cons kv rest ih =>
    obtain ⟨k0, v0⟩ := kv
    by_cases h0 : k0 = k
    · subst h0
      simp [alLookup, alSet, List.find?, Ne.symm h]
    · by_cases h1 : k0 = k'
      · subst h1
        simp [alLookup, alSet, h0, List.find?]
      · simpa [alLookup, alSet, h0, h1, List.find?] using ih

theorem alLookup_alRemove_self {κ α : Type} [DecidableEq κ] (m : List (κ × α)) (k : κ) :
    alLookup (alRemove m k) k = none := by
  induction m with
  | nil => rfl
  | cons kv rest ih =>
    obtain ⟨k0, v0⟩ := kv
    by_cases h0 : k0 = k
    · simpa [alLookup, alRemove, h0, List.filter] using ih
    · simpa [alLookup, alRemove, h0, List.find?, List.filter] using ih

theorem alLookup_alRemove_ne {κ α : Type} [DecidableEq κ] (m : List (κ × α)) (k k' : κ)
    (h : k' ≠ k) : alLookup (alRemove m k) k' = alLookup m k' := by
  induction m with
  | nil => rfl
  | cons kv rest ih =>
    obtain ⟨k0, v0⟩ := kv
    by_cases h0 : k0 = k
    · subst h0
      simpa [alLookup, alRemove, List.filter, List.find?, Ne.symm h] using ih
    · by_cases h1 : k0 = k'
      · subst h1
        simp [alLookup, alRemove, h0, List.filter, List.find?]
      · simpa [alLookup, alRemove, h0, h1, List.filter, List.find?] using ih

/-! ## Mirror downloader (`common/dl.py`)

The network is modelled as a function from (round index, URL) to an
outcome: a 200 response with the full body, a 404 (`NotFoundError`), or
any other recorded failure (`ClientError`, `HttpError`, `TimeoutError`)
carrying the formatted `type(e).__name__: str(e)` text.  File contents
are byte sequences, modelled as `List Nat`. -/

inductive DlOutcome
  | success (content : List Nat)
  | notFound
  | failure (msg : String)
deriving Repr, DecidableEq

inductive RoundResult
  | success (contacted : List String) (content : List Nat)
  | done (survivors : List String) (errs : List String) (contacted : List String)
deriving Repr, DecidableEq

/-- One pass of `for url in list(remaining_urls):` (lines 128-148 of
`common/dl.py`): a 200 response returns immediately; a 404 removes the URL
from the remaining set; any other failure records
`URL {url}: {error_msg}` and keeps the URL.  Returns the surviving URLs,
the errors of this round in order, and the URLs contacted. -/
def runRound (net : String → DlOutcome) : List String → RoundResult
  | [] => .done [] [] []
  | u :: rest =>
    match net u with
    | .success c => .success [u] c
    | .notFound =>
      match runRound net rest with
      | .success cs c => .success (u :: cs) c
      | .done s e cs => .done s e (u :: cs)
    | .failure m =>
      match runRound net rest with
      | .success cs c => .success (u :: cs) c
      | .done s e cs => .done (u :: s) (("URL " ++ u ++ ": " ++ m) :: e) (u :: cs)

theorem runRound_done_survivors_length (net : String → DlOutcome) :
    ∀ l s e c, runRound net l = .done s e c → s.length ≤ l.length := by
  intro l
  induction l with
  | nil =>
    intro s e c h
    simp only [runRound, RoundResult.done.injEq] at h
    simp [← h.1]
  | cons u rest ih =>
    intro s e c h
    simp only [runRound] at h
    cases hn : net u <;> simp only [hn] at h
    · exact absurd h (by simp)
    · cases hr : runRound net rest <;> simp only [hr] at h
      · exact absurd h (by simp)
      · obtain ⟨rfl, -, -⟩ := RoundResult.done.inj h
        exact le_trans (ih _ _ _ hr) (Nat.le_succ _)
    · cases hr : runRound net rest <;> simp only [hr] at h
      · exact absurd h (by simp)
      · obtain ⟨rfl, -, -⟩ := RoundResult.done.inj h
        simpa using ih _ _ _ hr

theorem runRound_done_nil_errs (net : String → DlOutcome) :
    ∀ l s c, runRound net l = .done s [] c → s = [] := by
  intro l
  induction l with
  | nil =>
    intro s c h
    simp only [runRound, RoundResult.done.injEq] at h
    exact h.1.symm
  | cons u rest ih =>
    intro s c h
    simp only [runRound] at h
    cases hn : net u <;> simp only [hn] at h
    · exact absurd h (by simp)
    · cases hr : runRound net rest <;> simp only [hr] at h
      · exact absurd h (by simp)
      · obtain ⟨rfl, he, -⟩ := RoundResult.done.inj h
        exact ih _ _ (he ▸ hr)
    · cases hr : runRound net rest <;> simp only [hr] at h
      · exact absurd h (by simp)
      · obtain ⟨-, he, -⟩ := RoundResult.done.inj h
        exact absurd he (by simp)

/-- Every survivor of a round failed with a recorded (non-404) error. -/
theorem runRound_survivors_failure (net : String → DlOutcome) :
    ∀ l s e c, runRound net l = .done s e c → ∀ u ∈ s, ∃ m, net u = .failure m := by
  intro l
  induction l with
  | nil =>
    intro s e c h u hu
    simp only [runRound, RoundResult.done.injEq] at h
    rw [← h.1] at hu
    exact absurd hu (List.not_mem_nil u)
  | cons u0 rest ih =>
    intro s e c h u hu
    simp only [runRound] at h
    cases hn : net u0 <;> simp only [hn] at h
    · exact absurd h (by simp)
    · cases hr : runRound net rest <;> simp only [hr] at h
      · exact absurd h (by simp)
      · obtain ⟨rfl, -, -⟩ := RoundResult.done.inj h
        exact ih _ _ _ hr u hu
    · cases hr : runRound net rest <;> simp only [hr] at h
      · exact absurd h (by simp)
      · obtain ⟨rfl, -, -⟩ := RoundResult.done.inj h
        rcases List.mem_cons.mp hu with rfl | hu'
        · exact ⟨_, hn⟩
        · exact ih _ _ _ hr u hu'

theorem runRound_survivors_subset (net : String → DlOutcome) :
    ∀ l s e c, runRound net l = .done s e c → s ⊆ l := by
  intro l
  induction l with
  | nil =>
    intro s e c h
    simp only [runRound, RoundResult.done.injEq] at h
    rw [← h.1]
    exact List.Subset.refl _
  | cons u rest ih =>
    intro s e c h
    simp only [runRound] at h
    cases hn : net u <;> simp only [hn] at h
    · exact absurd h (by simp)
    · cases hr : runRound net rest <;> simp only [hr] at h
      · exact absurd h (by simp)
      · obtain ⟨rfl, -, -⟩ := RoundResult.done.inj h
        exact List.Subset.trans (ih _ _ _ hr) (List.subset_cons_self _ _)
    · cases hr : runRound net rest <;> simp only [hr] at h
      · exact absurd h (by simp)
      · obtain ⟨rfl, -, -⟩ := RoundResult.done.inj h
        exact List.cons_subset_cons _ (ih _ _ _ hr)

theorem runRound_success_contacted_subset (net : String → DlOutcome) :
    ∀ l cs c, runRound net l = .success cs c → cs ⊆ l := by
  intro l
  induction l with
  | nil =>
    intro cs c h
    simp only [runRound] at h
    exact absurd h (by simp)
  | cons u rest ih =>
    intro cs c h
    simp only [runRound] at h
    cases hn : net u <;> simp only [hn] at h
    · obtain ⟨h1, -⟩ := RoundResult.success.inj h
      rw [← h1]
      simp
    · cases hrr : runRound net rest <;> simp only [hrr] at h
      · obtain ⟨h1, -⟩ := RoundResult.success.inj h
        rw [← h1]
        exact List.cons_subset_cons _ (ih _ _ hrr)
      · exact absurd h (by simp)
    · cases hrr : runRound net rest <;> simp only [hrr] at h
      · obtain ⟨h1, -⟩ := RoundResult.success.inj h
        rw [← h1]
        exact List.cons_subset_cons _ (ih _ _ hrr)
      · exact absurd h (by simp)

theorem runRound_done_contacted_subset (net : String → DlOutcome) :
    ∀ l s e cs, runRound net l = .done s e cs → cs ⊆ l := by
  intro l
  induction l with
  | nil =>
    intro s e cs h
    simp only [runRound, RoundResult.done.injEq] at h
    rw [← h.2.2]
    exact List.Subset.refl _
  | cons u rest ih =>
    intro s e cs h
    simp only [runRound] at h
    cases hn : net u <;> simp only [hn] at h
    · exact absurd h (by simp)
    · cases hrr : runRound net rest <;> simp only [hrr] at h
      · exact absurd h (by simp)
      · obtain ⟨-, -, h3⟩ := RoundResult.done.inj h
        rw [← h3]
        exact List.cons_subset_cons _ (ih _ _ _ hrr)
    · cases hrr : runRound net rest <;> simp only [hrr] at h
      · exact absurd h (by simp)
      · obtain ⟨-, -, h3⟩ := RoundResult.done.inj h
        rw [← h3]
        exact List.cons_subset_cons _ (ih _ _ _ hrr)

/-- The `while retry_count > 0 and remaining_urls:` loop of
`Downloader.get` (lines 122-161 of `common/dl.py`), started with
`retry_count = 3`, `errors = []` and the full URL list.  `roundIdx` counts
the rounds so the network model can vary per attempt.  The result pairs
the outcome (`.ok content`, or the raised exception text joining every
recorded error) with the contact log of (round, URL) requests actually
issued.  `retry_count` is decremented only when the round recorded errors,
exactly as in the source; a round with no errors leaves no survivors, so
the loop then exits on the emptiness test. -/
def dlLoop (net : Nat → String → DlOutcome) (fuel roundIdx : Nat)
    (remaining errors : List String) :
    Except String (List Nat) × List (Nat × String) :=
  match fuel with
  | 0 => (.error (String.intercalate "\n" errors), [])
  | f + 1 =>
    if hrem : remaining = [] then (.error (String.intercalate "\n" errors), [])
    else
      match hr : runRound (net roundIdx) remaining with
      | .success contacted c => (.ok c, contacted.map fun u => (roundIdx, u))
      | .done survivors errs contacted =>
        if herr : errs = [] then
          let next := dlLoop net (f + 1) (roundIdx + 1) survivors errors
          (next.1, (contacted.map fun u => (roundIdx, u)) ++ next.2)
        else
          let next := dlLoop net f (roundIdx + 1) survivors (errors ++ errs)
          (next.1, (contacted.map fun u => (roundIdx, u)) ++ next.2)
termination_by fuel + remaining.length
decreasing_by
  · have hs : survivors = [] := runRound_done_nil_errs _ _ _ _ (herr ▸ hr)
    have hlen : 0 < remaining.length := List.length_pos.mpr hrem
    simp [hs]
    omega
  · have hs := runRound_done_survivors_length _ _ _ _ _ hr
    have hlen : 0 < remaining.length := List.length_pos.mpr hrem
    omega

theorem dlLoop_nil (net : Nat → String → DlOutcome) (fuel roundIdx : Nat)
    (errors : List String) :
    dlLoop net fuel roundIdx [] errors =
      (.error (String.intercalate "\n" errors), []) := by
  cases fuel <;> simp [dlLoop]

theorem dlLoop_success (net : Nat → String → DlOutcome) (f roundIdx : Nat)
    (remaining errors contacted : List String) (c : List Nat)
    (hrem : remaining ≠ [])
    (hr : runRound (net roundIdx) remaining = .success contacted c) :
    dlLoop net (f + 1) roundIdx remaining errors =
      (.ok c, contacted.map fun u => (roundIdx, u)) := by
  rw [dlLoop.eq_def]
  simp only [dif_neg hrem]
  split
  · next contacted' c' heq =>
    obtain ⟨h1, h2⟩ := RoundResult.success.inj (hr.symm.trans heq)
    rw [h1, h2]
  · next survivors' errs' contacted' heq =>
    exact absurd (hr.symm.trans heq) (by simp)

theorem dlLoop_done (net : Nat → String → DlOutcome) (f roundIdx : Nat)
    (remaining errors survivors errs contacted : List String)
    (hrem : remaining ≠ [])
    (hr : runRound (net roundIdx) remaining = .done survivors errs contacted)
    (herr : errs ≠ []) :
    dlLoop net (f + 1) roundIdx remaining errors =
      ((dlLoop net f (roundIdx + 1) survivors (errors ++ errs)).1,
       (contacted.map fun u => (roundIdx, u)) ++
         (dlLoop net f (roundIdx + 1) survivors (errors ++ errs)).2) := by
  rw [dlLoop.eq_def]
  simp only [dif_neg hrem]
  split
  · next contacted' c' heq =>
    exact absurd (hr.symm.trans heq) (by simp)
  · next survivors' errs' contacted' heq =>
    obtain ⟨h1, h2, h3⟩ := RoundResult.done.inj (hr.symm.trans heq)
    rw [← h1, ← h2, ← h3, dif_neg herr]

theorem dlLoop_done_quiet (net : Nat → String → DlOutcome) (f roundIdx : Nat)
    (remaining errors survivors contacted : List String)
    (hrem : remaining ≠ [])
    (hr : runRound (net roundIdx) remaining = .done survivors [] contacted) :
    dlLoop net (f + 1) roundIdx remaining errors =
      (.error (String.intercalate "\n" errors),
       contacted.map fun u => (roundIdx, u)) := by
  have hs : survivors = [] := runRound_done_nil_errs _ _ _ _ hr
  rw [dlLoop.eq_def]
  simp only [dif_neg hrem]
  split
  · next contacted' c' heq =>
    exact absurd (hr.symm.trans heq) (by simp)
  · next survivors' errs' contacted' heq =>
    obtain ⟨h1, h2, h3⟩ := RoundResult.done.inj (hr.symm.trans heq)
    rw [← h1, ← h2, ← h3, dif_pos rfl, hs, dlLoop_nil]
    simp

/-- Every contact in the log happens at the current round or later, and
only against a URL still in the remaining candidate set. -/
theorem dlLoop_log_mem (net : Nat → String → DlOutcome) :
    ∀ fuel roundIdx remaining errors r u,
      (r, u) ∈ (dlLoop net fuel roundIdx remaining errors).2 →
      roundIdx ≤ r ∧ u ∈ remaining := by
  intro fuel
  induction fuel with
  | zero =>
    intro ri remaining errors r u h
    simp [dlLoop] at h
  | succ f ih =>
    intro ri remaining errors r u h
    by_cases hrem : remaining = []
    · subst hrem
      rw [dlLoop_nil] at h
      simp at h
    · cases hr : runRound (net ri) remaining with
      | success contacted c =>
        rw [dlLoop_success net f ri remaining errors contacted c hrem hr] at h
        simp only [List.mem_map] at h
        obtain ⟨u', hu', heq⟩ := h
        obtain ⟨rfl, rfl⟩ := Prod.mk.inj heq
        exact ⟨le_refl _, runRound_success_contacted_subset _ _ _ _ hr hu'⟩
      | done survivors errs contacted =>
        by_cases herr : errs = []
        · subst herr
          rw [dlLoop_done_quiet net f ri remaining errors survivors contacted hrem hr] at h
          simp only [List.mem_map] at h
          obtain ⟨u', hu', heq⟩ := h
          obtain ⟨rfl, rfl⟩ := Prod.mk.inj heq
          exact ⟨le_refl _, runRound_done_contacted_subset _ _ _ _ _ hr hu'⟩
        · rw [dlLoop_done net f ri remaining errors survivors errs contacted hrem hr herr] at h
          rcases List.mem_append.mp h with h1 | h2
          · simp only [List.mem_map] at h1
            obtain ⟨u', hu', heq⟩ := h1
            obtain ⟨rfl, rfl⟩ := Prod.mk.inj heq
            exact ⟨le_refl _, runRound_done_contacted_subset _ _ _ _ _ hr hu'⟩
          · obtain ⟨hle, hmem⟩ := ih (ri + 1) survivors (errors ++ errs) r u h2
            exact ⟨le_trans (Nat.le_succ _) hle,
              runRound_survivors_subset _ _ _ _ _ hr hmem⟩

/-- 404 permanence: once a URL answers 404 at some round, it is never
contacted at any later round inside the same fetch. -/
theorem dlLoop_notFound_last (net : Nat → String → DlOutcome) :
    ∀ fuel roundIdx remaining errors r u r',
      (r, u) ∈ (dlLoop net fuel roundIdx remaining errors).2 →
      net r u = .notFound →
      (r', u) ∈ (dlLoop net fuel roundIdx remaining errors).2 →
      r' ≤ r := by
  intro fuel
  induction fuel with
  | zero =>
    intro ri remaining errors r u r' h hnf h'
    simp [dlLoop] at h
  | succ f ih =>
    intro ri remaining errors r u r' h hnf h'
    by_cases hrem : remaining = []
    · subst hrem
      rw [dlLoop_nil] at h
      simp at h
    · cases hr : runRound (net ri) remaining with
      | success contacted c =>
        rw [dlLoop_success net f ri remaining errors contacted c hrem hr] at h h'
        simp only [List.mem_map] at h h'
        obtain ⟨u1, hu1, heq1⟩ := h
        obtain ⟨rfl, rfl⟩ := Prod.mk.inj heq1
        obtain ⟨u2, hu2, heq2⟩ := h'
        exact le_of_eq (Prod.mk.inj heq2).1.symm
      | done survivors errs contacted =>
        by_cases herr : errs = []
        · subst herr
          rw [dlLoop_done_quiet net f ri remaining errors survivors contacted hrem hr] at h h'
          simp only [List.mem_map] at h h'
          obtain ⟨u1, hu1, heq1⟩ := h
          obtain ⟨rfl, rfl⟩ := Prod.mk.inj heq1
          obtain ⟨u2, hu2, heq2⟩ := h'
          exact le_of_eq (Prod.mk.inj heq2).1.symm
        · rw [dlLoop_done net f ri remaining errors survivors errs contacted hrem hr herr] at h h'
          rcases List.mem_append.mp h with h1 | h2
          · simp only [List.mem_map] at h1
            obtain ⟨u1, hu1, heq1⟩ := h1
            obtain ⟨rfl, rfl⟩ := Prod.mk.inj heq1
            have hns : u1 ∉ survivors := by
              intro hmem
              obtain ⟨m, hm⟩ := runRound_survivors_failure _ _ _ _ _ hr u1 hmem
              rw [hnf] at hm
              exact DlOutcome.noConfusion hm
            rcases List.mem_append.mp h' with h1' | h2'
            · simp only [List.mem_map] at h1'
              obtain ⟨u2, hu2, heq2⟩ := h1'
              exact le_of_eq (Prod.mk.inj heq2).1.symm
            · exact absurd (dlLoop_log_mem net f (ri + 1) survivors (errors ++ errs) r' u1 h2').2 hns
          · rcases List.mem_append.mp h' with h1' | h2'
            · simp only [List.mem_map] at h1'
              obtain ⟨u2, hu2, heq2⟩ := h1'
              have hri : ri + 1 ≤ r := (dlLoop_log_mem net f (ri + 1) survivors (errors ++ errs) r u h2).1
              have : r' = ri := (Prod.mk.inj heq2).1.symm
              omega
            · exact ih (ri + 1) survivors (errors ++ errs) r u r' h2 hnf h2'

/-- Downloader state (`common/dl.py`): the optional cache directory, the
in-process `memory_cache` dict keyed by cache key, and the disk cache
directory keyed by file path.  Disk cache file names are derived from the
cache key by `hashlib.md5(...).hexdigest()`, modelled by an abstract
`hashFn` argument below. -/
structure DLState where
  cacheDir : Option String
  memoryCache : List (String × List Nat)
  diskFiles : List (String × List Nat)
deriving Repr, DecidableEq

/-- `Downloader._get_cache_path` for a set cache directory:
`os.path.join(self.cache_dir, md5hex(cache_key))`. -/
def getCachePath (hashFn : String → String) (cacheDir key : String) : String :=
  cacheDir ++ "/" ++ hashFn key

/-- `Downloader._try_read_cache`: the memory map first; on a miss, the
disk cache (when a cache directory is configured), populating the memory
map on a disk hit.  A missing disk file (`FileNotFoundError`) — and, with
the same observable result, any other read error, which the source logs
and swallows — yields `none`. -/
def tryReadCache (hashFn : String → String) (st : DLState) (key : String) :
    Option (List Nat) × DLState :=
  match alLookup st.memoryCache key with
  | some c => (some c, st)
  | none =>
    match st.cacheDir with
    | none => (none, st)
    | some d =>
      match alLookup st.diskFiles (getCachePath hashFn d key) with
      | some c => (some c, { st with memoryCache := alSet st.memoryCache key c })
      | none => (none, st)

/-- `Downloader._write_cache`: store in the memory map and, when a cache
directory is configured, on disk as well. -/
def writeCache (hashFn : String → String) (st : DLState) (key : String)
    (content : List Nat) : DLState :=
  let st1 := { st with memoryCache := alSet st.memoryCache key content }
  match st1.cacheDir with
  | none => st1
  | some d => { st1 with diskFiles := alSet st1.diskFiles (getCachePath hashFn d key) content }

/-- `Downloader.get_cn_urls`. -/
def get_cn_urls (repo sha path : String) : List String :=
  ["https://jsdelivr.pai233.top/gh/" ++ repo ++ "@" ++ sha ++ "/" ++ path,
   "https://cdn.jsdmirror.com/gh/" ++ repo ++ "@" ++ sha ++ "/" ++ path,
   "https://raw.gitmirror.com/" ++ repo ++ "/" ++ sha ++ "/" ++ path,
   "https://raw.dgithub.xyz/" ++ repo ++ "/" ++ sha ++ "/" ++ path,
   "https://gh.akass.cn/" ++ repo ++ "/" ++ sha ++ "/" ++ path]

/-- `Downloader.get_default_url`. -/
def get_default_url (repo sha path : String) : String :=
  "https://raw.githubusercontent.com/" ++ repo ++ "/" ++ sha ++ "/" ++ path

/-- The cache key `f"{repo}@{sha}/{path}"`. -/
def cacheKeyOf (repo sha path : String) : String :=
  repo ++ "@" ++ sha ++ "/" ++ path

/-- `Downloader.get` (lines 96-161 of `common/dl.py`): consult the cache;
on a miss pick the URL candidate list from the `IS_CN` environment flag,
run the retry loop, and on success write both cache tiers.  Returns the
outcome, the updated downloader state, and the contact log of network
requests issued. -/
def Downloader.get (hashFn : String → String) (net : Nat → String → DlOutcome)
    (isCN : Bool) (st : DLState) (sha path repo : String) :
    Except String (List Nat) × DLState × List (Nat × String) :=
  match tryReadCache hashFn st (cacheKeyOf repo sha path) with
  | (some c, st') => (.ok c, st', [])
  | (none, st') =>
    match dlLoop net 3 0
        (if isCN then get_cn_urls repo sha path else [get_default_url repo sha path]) [] with
    | (.ok c, log) => (.ok c, writeCache hashFn st' (cacheKeyOf repo sha path) c, log)
    | (.error e, log) => (.error e, st', log)

/-- After any successful fetch the memory cache holds the returned bytes
under the fetch key. -/
theorem Downloader.get_success_memory (hashFn : String → String)
    (net : Nat → String → DlOutcome) (isCN : Bool) (st : DLState) (sha path repo : String)
    (c : List Nat) (st' : DLState) (log : List (Nat × String))
    (h : Downloader.get hashFn net isCN st sha path repo = (.ok c, st', log)) :
    alLookup st'.memoryCache (cacheKeyOf repo sha path) = some c := by
  unfold Downloader.get at h
  cases htc : tryReadCache hashFn st (cacheKeyOf repo sha path) with
  | mk copt st0 =>
    cases copt with
    | some c0 =>
      rw [htc] at h
      simp only [Prod.mk.injEq, Except.ok.injEq] at h
      obtain ⟨rfl, rfl, -⟩ := h
      unfold tryReadCache at htc
      cases hm : alLookup st.memoryCache (cacheKeyOf repo sha path) with
      | some cm =>
        simp only [hm, Prod.mk.injEq, Option.some.injEq] at htc
        obtain ⟨rfl, rfl⟩ := htc
        exact hm
      | none =>
        simp only [hm] at htc
        cases hcd : st.cacheDir with
        | none => simp [hcd] at htc
        | some d =>
          simp only [hcd] at htc
          cases hdisk : alLookup st.diskFiles (getCachePath hashFn d (cacheKeyOf repo sha path)) with
          | some cd =>
            simp only [hdisk, Prod.mk.injEq, Option.some.injEq] at htc
            obtain ⟨rfl, rfl⟩ := htc
            exact alLookup_alSet_self _ _ _
          | none => simp [hdisk] at htc
    | none =>
      rw [htc] at h
      simp only at h
      cases hdl : dlLoop net 3 0
          (if isCN then get_cn_urls repo sha path else [get_default_url repo sha path]) [] with
      | mk res log1 =>
        cases res with
        | ok c1 =>
          rw [hdl] at h
          simp only [Prod.mk.injEq, Except.ok.injEq] at h
          obtain ⟨rfl, rfl, -⟩ := h
          unfold writeCache
          cases hcd : st0.cacheDir <;> simp [hcd, alLookup_alSet_self]
        | error e =>
          rw [hdl] at h
          simp at h

/-- On a cache miss with a successful retry loop, `Downloader.get`
returns the downloaded bytes and writes the cache. -/
theorem Downloader.get_miss_ok (hashFn : String → String) (net : Nat → String → DlOutcome)
    (isCN : Bool) (st : DLState) (sha path repo : String) (st' : DLState)
    (c : List Nat) (log : List (Nat × String))
    (htc : tryReadCache hashFn st (cacheKeyOf repo sha path) = (none, st'))
    (hdl : dlLoop net 3 0
      (if isCN then get_cn_urls repo sha path else [get_default_url repo sha path]) [] =
        (.ok c, log)) :
    Downloader.get hashFn net isCN st sha path repo =
      (.ok c, writeCache hashFn st' (cacheKeyOf repo sha path) c, log) := by
  unfold Downloader.get
  rw [htc, hdl]

/-- On a cache miss with a failing retry loop, `Downloader.get` fails with
the loop's aggregated error detail. -/
theorem Downloader.get_miss_err (hashFn : String → String) (net : Nat → String → DlOutcome)
    (isCN : Bool) (st : DLState) (sha path repo : String) (st' : DLState)
    (e : String) (log : List (Nat × String))
    (htc : tryReadCache hashFn st (cacheKeyOf repo sha path) = (none, st'))
    (hdl : dlLoop net 3 0
      (if isCN then get_cn_urls repo sha path else [get_default_url repo sha path]) [] =
        (.error e, log)) :
    Downloader.get hashFn net isCN st sha path repo = (.error e, st', log) := by
  unfold Downloader.get
  rw [htc, hdl]

/-- Claim C3: a fetch whose cache already holds the key returns the cached
bytes with zero network contacts; the memory map is consulted before disk
(a memory hit leaves the state untouched regardless of the disk);
a disk hit populates the memory map; and a repeated fetch after any
successful fetch is a pure cache hit: same bytes, unchanged state, empty
contact log. -/
theorem C3_cache_hit_short_circuits
    (hashFn : String → String) (net : Nat → String → DlOutcome) (isCN : Bool)
    (st : DLState) (sha path repo : String) :
    (∀ c st', tryReadCache hashFn st (cacheKeyOf repo sha path) = (some c, st') →
      Downloader.get hashFn net isCN st sha path repo = (.ok c, st', [])) ∧
    (∀ c, alLookup st.memoryCache (cacheKeyOf repo sha path) = some c →
      tryReadCache hashFn st (cacheKeyOf repo sha path) = (some c, st)) ∧
    (∀ d c, alLookup st.memoryCache (cacheKeyOf repo sha path) = none →
      st.cacheDir = some d →
      alLookup st.diskFiles (getCachePath hashFn d (cacheKeyOf repo sha path)) = some c →
      tryReadCache hashFn st (cacheKeyOf repo sha path) =
        (some c,
         { st with memoryCache := alSet st.memoryCache (cacheKeyOf repo sha path) c })) ∧
    (∀ c st' log, Downloader.get hashFn net isCN st sha path repo = (.ok c, st', log) →
      Downloader.get hashFn net isCN st' sha path repo = (.ok c, st', [])) := by
  refine ⟨?_, ?_, ?_, ?_⟩
  · intro c st' htc
    unfold Downloader.get
    rw [htc]
  · intro c hm
    unfold tryReadCache
    rw [hm]
  · intro d c hm hcd hdisk
    unfold tryReadCache
    simp only [hm, hcd, hdisk]
  · intro c st' log h
    have hmem := Downloader.get_success_memory hashFn net isCN st sha path repo c st' log h
    unfold Downloader.get
    unfold tryReadCache
    rw [hmem]

/-- Witness scenario for C3: a network that answers the canonical URL with
bytes `[1, 2]`. -/
def netOnce : Nat → String → DlOutcome := fun _ _ => .success [1, 2]

/-- Witness scenario for C3: a fresh downloader with no cache directory. -/
def stEmpty : DLState := ⟨none, [], []⟩

/-- Witness scenario for C3: the downloader state after the first
successful fetch of `r@s/p`. -/
def stCached : DLState := ⟨none, [(cacheKeyOf "r" "s" "p", [1, 2])], []⟩

/-- Witness for C3: after a first successful fetch (one network contact),
the repeated identical fetch returns the same bytes with an empty contact
log and an unchanged state. -/
theorem C3_cache_hit_short_circuits_witness :
    Downloader.get (fun s => s) netOnce false stCached "s" "p" "r" =
      (.ok [1, 2], stCached, []) := by
  have hdl : dlLoop netOnce 3 0
      (if false then get_cn_urls "r" "s" "p" else [get_default_url "r" "s" "p"]) [] =
        (.ok [1, 2], [(0, get_default_url "r" "s" "p")]) := by
    show dlLoop netOnce (2 + 1) 0 [get_default_url "r" "s" "p"] [] = _
    exact dlLoop_success netOnce 2 0 [get_default_url "r" "s" "p"] []
      [get_default_url "r" "s" "p"] [1, 2] (by simp) rfl
  have h1 : Downloader.get (fun s => s) netOnce false stEmpty "s" "p" "r" =
      (.ok [1, 2], stCached, [(0, get_default_url "r" "s" "p")]) :=
    Downloader.get_miss_ok (fun s => s) netOnce false stEmpty "s" "p" "r" stEmpty
      [1, 2] [(0, get_default_url "r" "s" "p")] rfl hdl
  exact (C3_cache_hit_short_circuits (fun s => s) netOnce false stEmpty "s" "p" "r").2.2.2
    [1, 2] stCached [(0, get_default_url "r" "s" "p")] h1

/-- Scenario network for C4: URL `a` answers 404 at every round, URL `b`
fails with a recorded error `m<round>` at every round. -/
def netC4 : Nat → String → DlOutcome :=
  fun r u => if u = "a" then .notFound else .failure ("m" ++ toString r)

/-- Scenario network for C4: every URL answers 404. -/
def net404 : Nat → String → DlOutcome := fun _ _ => .notFound

/-- Claim C4: within one fetch, (1) a URL answering 404 is removed
permanently — it is never contacted at a later round; (2) scenario: URL
`a` 404s and is contacted only in round 0 while URL `b` keeps failing and
stays eligible for all 3 rounds, after which the fetch fails with every
recorded error message joined into the failure detail; (3) scenario: when
every URL answers 404 the candidate set empties and the fetch fails with
the (empty) aggregation of recorded errors; (4) a failing loop makes the
whole fetch fail with the same aggregated detail. -/
theorem C4_mirror_retry_policy :
    (∀ (net : Nat → String → DlOutcome) (fuel roundIdx : Nat)
        (remaining errors : List String) (r : Nat) (u : String) (r' : Nat),
      (r, u) ∈ (dlLoop net fuel roundIdx remaining errors).2 →
      net r u = .notFound →
      (r', u) ∈ (dlLoop net fuel roundIdx remaining errors).2 →
      r' ≤ r) ∧
    dlLoop netC4 3 0 ["a", "b"] [] =
      (.error "URL b: m0\nURL b: m1\nURL b: m2",
       [(0, "a"), (0, "b"), (1, "b"), (2, "b")]) ∧
    dlLoop net404 3 0 ["u"] [] = (.error "", [(0, "u")]) ∧
    (∀ (hashFn : String → String) (net : Nat → String → DlOutcome) (isCN : Bool)
        (st : DLState) (sha path repo : String) (st' : DLState) (e : String)
        (log : List (Nat × String)),
      tryReadCache hashFn st (cacheKeyOf repo sha path) = (none, st') →
      dlLoop net 3 0
        (if isCN then get_cn_urls repo sha path else [get_default_url repo sha path]) [] =
          (.error e, log) →
      Downloader.get hashFn net isCN st sha path repo = (.error e, st', log)) := by
  refine ⟨?_, ?_, ?_, ?_⟩
  · intro net fuel roundIdx remaining errors r u r' h hnf h'
    exact dlLoop_notFound_last net fuel roundIdx remaining errors r u r' h hnf h'
  · have hL1 : dlLoop netC4 1 2 ["b"] ["URL b: m0", "URL b: m1"] =
        (.error "URL b: m0\nURL b: m1\nURL b: m2", [(2, "b")]) := by
      show dlLoop netC4 (0 + 1) 2 ["b"] _ = _
      rw [dlLoop_done netC4 0 2 ["b"] ["URL b: m0", "URL b: m1"] ["b"] ["URL b: m2"] ["b"]
        (by simp) rfl (by simp)]
      rw [show dlLoop netC4 0 3 ["b"] (["URL b: m0", "URL b: m1"] ++ ["URL b: m2"]) =
        (.error (String.intercalate "\n" (["URL b: m0", "URL b: m1"] ++ ["URL b: m2"])), [])
        from by simp [dlLoop]]
      rfl
    have hL2 : dlLoop netC4 2 1 ["b"] ["URL b: m0"] =
        (.error "URL b: m0\nURL b: m1\nURL b: m2", [(1, "b"), (2, "b")]) := by
      show dlLoop netC4 (1 + 1) 1 ["b"] _ = _
      rw [dlLoop_done netC4 1 1 ["b"] ["URL b: m0"] ["b"] ["URL b: m1"] ["b"]
        (by simp) rfl (by simp)]
      simp only [List.cons_append, List.nil_append]
      rw [hL1]
      rfl
    show dlLoop netC4 (2 + 1) 0 ["a", "b"] [] = _
    rw [dlLoop_done netC4 2 0 ["a", "b"] [] ["b"] ["URL b: m0"] ["a", "b"]
      (by simp) rfl (by simp)]
    simp only [List.nil_append]
    rw [hL2]
    rfl
  · show dlLoop net404 (2 + 1) 0 ["u"] [] = _
    rw [dlLoop_done_quiet net404 2 0 ["u"] [] [] ["u"] (by simp) rfl]
    rfl
  · intro hashFn net isCN st sha path repo st' e log htc hdl
    exact Downloader.get_miss_err hashFn net isCN st sha path repo st' e log htc hdl

/-- Witness for C4, discharging the hypotheses of its universally
quantified parts at the concrete scenario: URL `a` 404s in round 0 of the
`netC4` run and is indeed never contacted later, and a failing loop makes
the concrete fetch fail with the aggregated detail. -/
theorem C4_mirror_retry_policy_witness :
    netC4 0 "a" = DlOutcome.notFound ∧
    (0 : Nat) ≤ 0 ∧
    Downloader.get (fun s => s) net404 false stEmpty "s" "p" "r" =
      (.error "", stEmpty, [(0, get_default_url "r" "s" "p")]) := by
  have hlog : dlLoop net404 3 0
      (if false then get_cn_urls "r" "s" "p" else [get_default_url "r" "s" "p"]) [] =
        (.error "", [(0, get_default_url "r" "s" "p")]) := by
    show dlLoop net404 (2 + 1) 0 [get_default_url "r" "s" "p"] [] = _
    rw [dlLoop_done_quiet net404 2 0 [get_default_url "r" "s" "p"] [] []
      [get_default_url "r" "s" "p"] (by simp) rfl]
    rfl
  have hmem : ((0 : Nat), "a") ∈ (dlLoop netC4 3 0 ["a", "b"] []).2 := by
    rw [C4_mirror_retry_policy.2.1]
    simp
  refine ⟨rfl, ?_, ?_⟩
  · exact C4_mirror_retry_policy.1 netC4 3 0 ["a", "b"] [] 0 "a" 0 hmem rfl hmem
  · exact C4_mirror_retry_policy.2.2.2 (fun s => s) net404 false stEmpty "s" "p" "r"
      stEmpty "" [(0, get_default_url "r" "s" "p")] rfl hlog

/-! ## Python exceptions

Raised exceptions are reified as values; an `Except PyErr` result models a
function that either returned or raised.  `KeyboardInterrupt` and
`asyncio.CancelledError` are `BaseException`s in Python ≥ 3.8: an
`except Exception` clause does not catch them. -/

inductive PyErr
  | keyboardInterrupt
  | cancelledError
  | vdfError (msg : String)
  | osError (msg : String)
  | otherError (msg : String)
deriving Repr, DecidableEq

/-! ## VDF documents (`common/dkey_merge.py`)

A parsed VDF document is a nested string-keyed dictionary whose leaves are
strings.  Python `dict` semantics: insertion-ordered, assignment replaces
in place or appends (`alSet`), `dict.update` folds assignments. -/

inductive Vdf
  | str (s : String)
  | obj (entries : List (String × Vdf))

/-- `dict.update`: set every entry of `new` into `es`, in order. -/
def dictUpdate (es new : List (String × Vdf)) : List (String × Vdf) :=
  new.foldl (fun acc kv => alSet acc kv.1 kv.2) es

theorem alLookup_eq_none_of_not_mem {α : Type} (m : List (String × α)) (k : String)
    (h : k ∉ m.map Prod.fst) : alLookup m k = none := by
  induction m with
  | nil => rfl
  | cons kv rest ih =>
    obtain ⟨k0, v0⟩ := kv
    simp only [List.map_cons, List.mem_cons, not_or] at h
    have hne : k0 ≠ k := Ne.symm h.1
    simpa [alLookup, List.find?, hne] using ih h.2

theorem alLookup_dictUpdate (new : List (String × Vdf)) (es : List (String × Vdf))
    (k : String) (hnodup : (new.map Prod.fst).Nodup) :
    alLookup (dictUpdate es new) k =
      match alLookup new k with
      | some v => some v
      | none => alLookup es k := by
  induction new generalizing es with
  | nil => simp [dictUpdate, alLookup, List.find?]
  | cons kv rest ih =>
    obtain ⟨k1, v1⟩ := kv
    simp only [List.map_cons, List.nodup_cons] at hnodup
    have hstep : dictUpdate es ((k1, v1) :: rest) = dictUpdate (alSet es k1 v1) rest := rfl
    rw [hstep, ih (alSet es k1 v1) hnodup.2]
    by_cases hk : k = k1
    · subst hk
      have hrest : alLookup rest k = none :=
        alLookup_eq_none_of_not_mem rest k hnodup.1
      have hhead : alLookup ((k, v1) :: rest) k = some v1 := by
        simp [alLookup, List.find?]
      rw [hrest, hhead, alLookup_alSet_self]
    · have hcons : alLookup ((k1, v1) :: rest) k = alLookup rest k := by
        simp [alLookup, List.find?, Ne.symm hk]
      rw [hcons, alLookup_alSet_ne es k1 k v1 hk]

theorem alLookup_append_singleton_self {α : Type} (m : List (String × α)) (k : String) (v : α)
    (h : alLookup m k = none) : alLookup (m ++ [(k, v)]) k = some v := by
  induction m with
  | nil => simp [alLookup, List.find?]
  | cons kv rest ih =>
    obtain ⟨k0, v0⟩ := kv
    by_cases h0 : k0 = k
    · subst h0
      simp [alLookup, List.find?] at h
    · have h' : alLookup rest k = none := by
        simpa [alLookup, List.find?, h0] using h
      simpa [alLookup, List.find?, h0] using ih h'

theorem alLookup_append_singleton_ne {α : Type} (m : List (String × α)) (k0 : String) (v : α)
    (k : String) (h : k ≠ k0) : alLookup (m ++ [(k0, v)]) k = alLookup m k := by
  induction m with
  | nil => simp [alLookup, List.find?, Ne.symm h]
  | cons kv rest ih =>
    obtain ⟨k1, v1⟩ := kv
    by_cases h1 : k1 = k
    · subst h1
      simp [alLookup, List.find?]
    · simpa [alLookup, List.find?, h1] using ih

/-- `config.get('InstallConfigStore', {}).get('Software', {})` of
`_get_steam_config` (`common/dkey_merge.py`, lines 32-37).  An absent key
yields the empty dict; a non-dict value would raise in Python and is
handled by the caller's generic handler — observably identical to the
vendor node not being found (merge returns `False`, nothing written). -/
def softwareOf (config : List (String × Vdf)) : List (String × Vdf) :=
  match alLookup config "InstallConfigStore" with
  | some (.obj ics) =>
    match alLookup ics "Software" with
    | some (.obj sw) => sw
    | _ => []
  | _ => []

/-- Python's `str.lower()` on the ASCII VDF keys: lowercase every
character. -/
def pyLower (s : String) : String := ⟨s.data.map Char.toLower⟩

/-- The `next((software[key] for key in software if key.lower() == 'valve'),
None)` scan: the first entry whose key lowercases to `valve`. -/
def findValve (sw : List (String × Vdf)) : Option (String × Vdf) :=
  sw.find? fun kv => pyLower kv.1 = "valve"

/-- `_get_steam_config`: the value of the case-insensitively matched
vendor node, if any. -/
def _get_steam_config (config : List (String × Vdf)) : Option Vdf :=
  (findValve (softwareOf config)).map (·.2)

/-- `depots = steam.setdefault('depots', {}); depots.update(new)` on the
vendor node: update the existing `depots` submap in place, or append a
fresh one.  A non-dict `depots` value raises in Python (`.update` on a
string), caught by the caller's generic handler: `none`. -/
def mergeDepotsInto (valve newDepots : List (String × Vdf)) :
    Option (List (String × Vdf)) :=
  match alLookup valve "depots" with
  | some (.obj old) => some (alSet valve "depots" (.obj (dictUpdate old newDepots)))
  | some (.str _) => none
  | none => some (valve ++ [("depots", .obj (dictUpdate [] newDepots))])

/-- The pure mutation performed by `depotkey_merge` between a successful
read and the write-back (lines 56-66 of `common/dkey_merge.py`): locate
the vendor node inside `InstallConfigStore/Software`, merge the new depot
entries into its `depots` submap (in Python by aliasing; here by
rebuilding the surrounding document), and return the updated document, or
`none` when the vendor node is not found (merge returns `False` with no
write). -/
def depotkey_merge_core (config newDepots : List (String × Vdf)) :
    Option (List (String × Vdf)) :=
  match alLookup config "InstallConfigStore" with
  | some (.obj ics) =>
    match alLookup ics "Software" with
    | some (.obj sw) =>
      match findValve sw with
      | some (vk, .obj valve) =>
        (mergeDepotsInto valve newDepots).map fun valve' =>
          alSet config "InstallConfigStore"
            (.obj (alSet ics "Software" (.obj (alSet sw vk (.obj valve')))))
      | _ => none
    | _ => none
  | _ => none

/-- `depotkey_merge` (`common/dkey_merge.py`, lines 40-81) with its
exception handling made explicit: a missing file returns `False`; an
exception raised while reading (the `readResult` input) or writing (the
`writeErr` input) hits the `except` ladder — `KeyboardInterrupt`,
`vdf.VDFError`, `OSError` and `Exception` are all caught, logged and
turned into `False`, while `asyncio.CancelledError` (a `BaseException`,
matched by no clause) propagates.  The second component is the config
file's new content when the merge wrote it. -/
def depotkey_merge (fileExists : Bool) (readResult : Except PyErr (List (String × Vdf)))
    (newDepots : List (String × Vdf)) (writeErr : Option PyErr) :
    Except PyErr (Bool × Option (List (String × Vdf))) :=
  if !fileExists then .ok (false, none)
  else
    match readResult with
    | .error .cancelledError => .error .cancelledError
    | .error _ => .ok (false, none)
    | .ok config =>
      match depotkey_merge_core config newDepots with
      | none => .ok (false, none)
      | some config' =>
        match writeErr with
        | none => .ok (true, some config')
        | some .cancelledError => .error .cancelledError
        | some _ => .ok (false, none)

/-- `check_github_api_rate_limit` (`common/check.py`, lines 46-85) at the
level of its outermost `try`: `except KeyboardInterrupt: raise` and
`except Exception as e: log; raise` — every raised exception propagates
(`CancelledError` matches neither clause and propagates too). -/
def check_github_api_rate_limit (body : Except PyErr Unit) : Except PyErr Unit :=
  match body with
  | .ok _ => .ok ()
  | .error .keyboardInterrupt => .error .keyboardInterrupt
  | .error e => .error e

/-- The `except` ladder of `stool_add` (`common/unlock.py`, lines 65-70):
`asyncio.CancelledError` is caught, logged and turned into `False`;
`except Exception` likewise; `KeyboardInterrupt` matches neither clause
and propagates. -/
def stool_add_on_exc (e : PyErr) : Except PyErr Bool :=
  match e with
  | .cancelledError => .ok false
  | .keyboardInterrupt => .error .keyboardInterrupt
  | _ => .ok false

/-- The `except` ladder of `greenluma_add` (`common/unlock.py`, lines
118-123), identical in shape to `stool_add`'s. -/
def greenluma_add_on_exc (e : PyErr) : Except PyErr Bool :=
  match e with
  | .cancelledError => .ok false
  | .keyboardInterrupt => .error .keyboardInterrupt
  | _ => .ok false

/-- Counterexample to claim C5 as stated: `depotkey_merge` catches a
`KeyboardInterrupt` raised during the merge and converts it into the
ordinary failure result `False` instead of propagating it; likewise
`stool_add` converts `asyncio.CancelledError` into `False`. -/
theorem C5_counterexample :
    depotkey_merge true (.error .keyboardInterrupt) [] none = .ok (false, none) ∧
    stool_add_on_exc .cancelledError = .ok false := ⟨rfl, rfl⟩

/-- Claim C5 as amended: the quota check (`check_github_api_rate_limit`)
propagates every raised exception — in particular a user interrupt — and
never converts it into an ordinary result; but `depotkey_merge` catches
`KeyboardInterrupt` and returns `False` (writing nothing), and
`stool_add` and `greenluma_add` catch `asyncio.CancelledError` and return
`False`. -/
theorem C5_amended_interrupt_handling :
    (∀ e, check_github_api_rate_limit (.error e) = .error e) ∧
    (∀ newDepots writeErr,
      depotkey_merge true (.error .keyboardInterrupt) newDepots writeErr =
        .ok (false, none)) ∧
    stool_add_on_exc .cancelledError = .ok false ∧
    greenluma_add_on_exc .cancelledError = .ok false := by
  refine ⟨?_, ?_, rfl, rfl⟩
  · intro e
    cases e <;> rfl
  · intro newDepots writeErr
    rfl

/-- Claim C7: for a config document whose `InstallConfigStore/Software`
section contains a case-insensitively matched vendor node, the merged
document (which `_write_config` serialises and the next `_read_config`
parses back unchanged — VDF dump/load round-trip) has a vendor `depots`
submap equal to the union of the prior and the new entries with new
entries winning on depot-id collision, and every key outside that submap
— in the vendor node, the `Software` map, the `InstallConfigStore` map
and at top level — unchanged. -/
theorem C7_merge_round_trip
    (config newDepots ics sw valve oldDepots : List (String × Vdf)) (vk : String)
    (hics : alLookup config "InstallConfigStore" = some (.obj ics))
    (hsw : alLookup ics "Software" = some (.obj sw))
    (hvalve : findValve sw = some (vk, .obj valve))
    (hdep : alLookup valve "depots" = some (.obj oldDepots) ∨
      (alLookup valve "depots" = none ∧ oldDepots = []))
    (hnodup : (newDepots.map Prod.fst).Nodup) :
    ∃ config' ics' sw' valve' depots',
      depotkey_merge_core config newDepots = some config' ∧
      alLookup config' "InstallConfigStore" = some (.obj ics') ∧
      alLookup ics' "Software" = some (.obj sw') ∧
      alLookup sw' vk = some (.obj valve') ∧
      alLookup valve' "depots" = some (.obj depots') ∧
      (∀ k, alLookup depots' k =
        match alLookup newDepots k with
        | some v => some v
        | none => alLookup oldDepots k) ∧
      (∀ k, k ≠ "depots" → alLookup valve' k = alLookup valve k) ∧
      (∀ k, k ≠ vk → alLookup sw' k = alLookup sw k) ∧
      (∀ k, k ≠ "Software" → alLookup ics' k = alLookup ics k) ∧
      (∀ k, k ≠ "InstallConfigStore" → alLookup config' k = alLookup config k) := by
  rcases hdep with hold | ⟨hnone, rfl⟩
  · refine ⟨alSet config "InstallConfigStore"
        (.obj (alSet ics "Software" (.obj (alSet sw vk
          (.obj (alSet valve "depots" (.obj (dictUpdate oldDepots newDepots)))))))),
      alSet ics "Software" (.obj (alSet sw vk
        (.obj (alSet valve "depots" (.obj (dictUpdate oldDepots newDepots)))))),
      alSet sw vk (.obj (alSet valve "depots" (.obj (dictUpdate oldDepots newDepots)))),
      alSet valve "depots" (.obj (dictUpdate oldDepots newDepots)),
      dictUpdate oldDepots newDepots, ?_, ?_, ?_, ?_, ?_, ?_, ?_, ?_, ?_, ?_⟩
    · simp only [depotkey_merge_core, hics, hsw, hvalve, mergeDepotsInto, hold,
        Option.map_some']
    · exact alLookup_alSet_self _ _ _
    · exact alLookup_alSet_self _ _ _
    · exact alLookup_alSet_self _ _ _
    · exact alLookup_alSet_self _ _ _
    · intro k
      exact alLookup_dictUpdate newDepots oldDepots k hnodup
    · intro k hk
      exact alLookup_alSet_ne _ _ _ _ hk
    · intro k hk
      exact alLookup_alSet_ne _ _ _ _ hk
    · intro k hk
      exact alLookup_alSet_ne _ _ _ _ hk
    · intro k hk
      exact alLookup_alSet_ne _ _ _ _ hk
  · refine ⟨alSet config "InstallConfigStore"
        (.obj (alSet ics "Software" (.obj (alSet sw vk
          (.obj (valve ++ [("depots", .obj (dictUpdate [] newDepots))])))))),
      alSet ics "Software" (.obj (alSet sw vk
        (.obj (valve ++ [("depots", .obj (dictUpdate [] newDepots))])))),
      alSet sw vk (.obj (valve ++ [("depots", .obj (dictUpdate [] newDepots))])),
      valve ++ [("depots", .obj (dictUpdate [] newDepots))],
      dictUpdate [] newDepots, ?_, ?_, ?_, ?_, ?_, ?_, ?_, ?_, ?_, ?_⟩
    · simp only [depotkey_merge_core, hics, hsw, hvalve, mergeDepotsInto, hnone,
        Option.map_some']
    · exact alLookup_alSet_self _ _ _
    · exact alLookup_alSet_self _ _ _
    · exact alLookup_alSet_self _ _ _
    · exact alLookup_append_singleton_self _ _ _ hnone
    · intro k
      have h := alLookup_dictUpdate newDepots [] k hnodup
      rw [h]
    · intro k hk
      exact alLookup_append_singleton_ne _ _ _ _ hk
    · intro k hk
      exact alLookup_alSet_ne _ _ _ _ hk
    · intro k hk
      exact alLookup_alSet_ne _ _ _ _ hk
    · intro k hk
      exact alLookup_alSet_ne _ _ _ _ hk

/-- Witness configuration for C7: a vendor node `Valve` (matched
case-insensitively) holding one prior depot and one unrelated key, with
unrelated siblings at every level. -/
def configW : List (String × Vdf) :=
  [("InstallConfigStore", Vdf.obj
      [("Software", Vdf.obj
          [("Valve", Vdf.obj
              [("depots", Vdf.obj [("11", Vdf.str "oldkey11"), ("22", Vdf.str "oldkey22")]),
               ("keep", Vdf.str "z")])]),
       ("extra", Vdf.str "e")]),
   ("top", Vdf.str "t")]

/-- Witness for C7: merging `{22 ↦ newkey22, 33 ↦ newkey33}` into
`configW`. -/
theorem C7_merge_round_trip_witness :
    ∃ config' ics' sw' valve' depots',
      depotkey_merge_core configW
        [("22", Vdf.str "newkey22"), ("33", Vdf.str "newkey33")] = some config' ∧
      alLookup config' "InstallConfigStore" = some (.obj ics') ∧
      alLookup ics' "Software" = some (.obj sw') ∧
      alLookup sw' "Valve" = some (.obj valve') ∧
      alLookup valve' "depots" = some (.obj depots') ∧
      (∀ k, alLookup depots' k =
        match alLookup [("22", Vdf.str "newkey22"), ("33", Vdf.str "newkey33")] k with
        | some v => some v
        | none => alLookup [("11", Vdf.str "oldkey11"), ("22", Vdf.str "oldkey22")] k) ∧
      (∀ k, k ≠ "depots" → alLookup valve' k =
        alLookup [("depots", Vdf.obj [("11", Vdf.str "oldkey11"), ("22", Vdf.str "oldkey22")]),
                  ("keep", Vdf.str "z")] k) ∧
      (∀ k, k ≠ "Valve" → alLookup sw' k =
        alLookup [("Valve", Vdf.obj
          [("depots", Vdf.obj [("11", Vdf.str "oldkey11"), ("22", Vdf.str "oldkey22")]),
           ("keep", Vdf.str "z")])] k) ∧
      (∀ k, k ≠ "Software" → alLookup ics' k =
        alLookup [("Software", Vdf.obj
            [("Valve", Vdf.obj
                [("depots", Vdf.obj [("11", Vdf.str "oldkey11"), ("22", Vdf.str "oldkey22")]),
                 ("keep", Vdf.str "z")])]),
          ("extra", Vdf.str "e")] k) ∧
      (∀ k, k ≠ "InstallConfigStore" → alLookup config' k = alLookup configW k) :=
  C7_merge_round_trip configW
    [("22", Vdf.str "newkey22"), ("33", Vdf.str "newkey33")]
    _ _ _ _ "Valve" rfl rfl rfl (Or.inl rfl) (by decide)

/-! ## Atomic write-back (`common/dkey_merge.py`, `_write_config`)

The filesystem is an association list from path to file content.  The
write has four possible runs: full success; the temp-file open fails; an
exception interrupts the write after a partial amount of text reached the
temp file; `os.replace` fails.  `os.replace` itself is atomic: it either
fully installs the new content or leaves the target untouched. -/

inductive WriteOutcome
  | ok
  | failOpen (e : PyErr)
  | failDuring (written : String) (e : PyErr)
  | failReplace (e : PyErr)
deriving Repr, DecidableEq

/-- `_write_config` (`common/dkey_merge.py`, lines 18-29): serialize to
the sibling `<name>.tmp` path, `os.replace` it over the original; on any
exception, unlink the temp file if it exists and re-raise. -/
def _write_config (fs : List (String × String)) (configPath content : String)
    (outcome : WriteOutcome) : Except PyErr Unit × List (String × String) :=
  match outcome with
  | .ok =>
    (.ok (),
     alSet (alRemove (alSet fs (configPath ++ ".tmp") content) (configPath ++ ".tmp"))
       configPath content)
  | .failOpen e => (.error e, alRemove fs (configPath ++ ".tmp"))
  | .failDuring w e => (.error e, alRemove (alSet fs (configPath ++ ".tmp") w) (configPath ++ ".tmp"))
  | .failReplace e => (.error e, alRemove (alSet fs (configPath ++ ".tmp") content) (configPath ++ ".tmp"))

theorem ne_append_tmp (s : String) : s ≠ s ++ ".tmp" := by
  intro h
  have hlen := congrArg String.length h
  rw [String.length_append] at hlen
  have h4 : (".tmp" : String).length = 4 := rfl
  omega

/-- Claim C8: `_write_config` is atomic.  On success the config file holds
exactly the new content and no temp file remains; on any failure the
error propagates, the temp file has been removed, and the config file's
content is unchanged — a reader never observes a partially written
config file. -/
theorem C8_atomic_write_back (fs : List (String × String)) (configPath content : String)
    (outcome : WriteOutcome) :
    (outcome = .ok →
      (_write_config fs configPath content outcome).1 = .ok () ∧
      alLookup (_write_config fs configPath content outcome).2 configPath = some content ∧
      alLookup (_write_config fs configPath content outcome).2 (configPath ++ ".tmp") = none) ∧
    (∀ e, (_write_config fs configPath content outcome).1 = .error e →
      alLookup (_write_config fs configPath content outcome).2 configPath =
        alLookup fs configPath ∧
      alLookup (_write_config fs configPath content outcome).2 (configPath ++ ".tmp") =
        none) := by
  have hne : configPath ≠ configPath ++ ".tmp" := ne_append_tmp configPath
  cases outcome with
  | ok =>
    refine ⟨fun _ => ⟨rfl, alLookup_alSet_self _ _ _, ?_⟩, fun e he => ?_⟩
    · simp only [_write_config]
      rw [alLookup_alSet_ne _ _ _ _ (Ne.symm hne), alLookup_alRemove_self]
    · exact absurd he (by simp [_write_config])
  | failOpen e0 =>
    refine ⟨fun h => absurd h (by simp), fun e he => ⟨?_, ?_⟩⟩
    · exact alLookup_alRemove_ne _ _ _ hne
    · exact alLookup_alRemove_self _ _
  | failDuring w e0 =>
    refine ⟨fun h => absurd h (by simp), fun e he => ⟨?_, ?_⟩⟩
    · simp only [_write_config]
      rw [alLookup_alRemove_ne _ _ _ hne, alLookup_alSet_ne _ _ _ _ hne]
    · exact alLookup_alRemove_self _ _
  | failReplace e0 =>
    refine ⟨fun h => absurd h (by simp), fun e he => ⟨?_, ?_⟩⟩
    · simp only [_write_config]
      rw [alLookup_alRemove_ne _ _ _ hne, alLookup_alSet_ne _ _ _ _ hne]
    · exact alLookup_alRemove_self _ _

/-- Witness for C8: a successful write installs the new content and
removes the temp file; a failure mid-write leaves the original `old`
content in place and no temp file. -/
theorem C8_atomic_write_back_witness :
    ((_write_config [("config.vdf", "old")] "config.vdf" "new" .ok).1 = .ok () ∧
     alLookup (_write_config [("config.vdf", "old")] "config.vdf" "new" .ok).2
       "config.vdf" = some "new" ∧
     alLookup (_write_config [("config.vdf", "old")] "config.vdf" "new" .ok).2
       ("config.vdf" ++ ".tmp") = none) ∧
    (alLookup (_write_config [("config.vdf", "old")] "config.vdf" "new"
        (.failDuring "par" (.osError "disk"))).2 "config.vdf" =
      alLookup [("config.vdf", "old")] "config.vdf" ∧
     alLookup (_write_config [("config.vdf", "old")] "config.vdf" "new"
        (.failDuring "par" (.osError "disk"))).2 ("config.vdf" ++ ".tmp") = none) :=
  ⟨(C8_atomic_write_back [("config.vdf", "old")] "config.vdf" "new" .ok).1 rfl,
   (C8_atomic_write_back [("config.vdf", "old")] "config.vdf" "new"
      (.failDuring "par" (.osError "disk"))).2 (.osError "disk") rfl⟩

/-! ## Artifact extraction (`common/get_manifest_info.py`) -/

/-- `str.endswith(post)` / `Path(...).name.endswith(post)`: the last
characters of `s` equal `post`.  (Stated over the character list so that
it evaluates on concrete inputs.) -/
def strEndsWith (s post : String) : Bool :=
  post.data.length ≤ s.data.length &&
    s.data.drop (s.data.length - post.data.length) == post.data

inductive GMErr
  | decodeError
  | missingDepotsField
  | badVdf
  | missingKey (depotId : String)
deriving Repr, DecidableEq

/-- The downloaded `Key.vdf` content after the decode and parse stages of
`get_manifest`: decode failure (`UnicodeDecodeError` →
`ValueError('无效的Key.vdf编码')`), VDF parse failure, a parsed document
without a `depots` key, or the parsed `depots` dict, each entry carrying
its optional `DecryptionKey` field. -/
inductive KeyVdfParse
  | decodeFail
  | vdfFail
  | noDepots
  | parsed (depots : List (String × Option String))

/-- The `for depot_id, depot_info in depots.items():` loop of
`get_manifest` (lines 77-83): append `(depot_id, key)` pairs in order;
the first entry lacking `DecryptionKey` logs the offending depot id and
re-raises (`raise` after the `KeyError`), discarding the collected
partial list. -/
def collectDepotKeys : List (String × Option String) → Except GMErr (List (String × String))
  | [] => .ok []
  | (depotId, some k) :: rest =>
    match collectDepotKeys rest with
    | .ok l => .ok ((depotId, k) :: l)
    | .error e => .error e
  | (depotId, none) :: _ => .error (.missingKey depotId)

/-- `get_manifest` (`common/get_manifest_info.py`, lines 15-92), with the
download already resolved: a `.manifest` path saves the bytes (or skips
an existing file) and returns no records; `Key.vdf` decodes, parses and
collects the depot records; any other path does nothing.  (Download and
filesystem failures of the `.manifest` branch re-raise and are outside
this claim.) -/
def get_manifest (path : String) (saveExists : Bool) (keyContent : KeyVdfParse) :
    Except GMErr (List (String × String)) :=
  if strEndsWith path ".manifest" then .ok []
  else if path = "Key.vdf" then
    match keyContent with
    | .decodeFail => .error .decodeError
    | .vdfFail => .error .badVdf
    | .noDepots => .error .missingDepotsField
    | .parsed depots => collectDepotKeys depots
  else .ok []

theorem collectDepotKeys_missing (depots : List (String × Option String))
    (h : ∃ p ∈ depots, p.2 = none) :
    ∃ depotId, (depotId, (none : Option String)) ∈ depots ∧
      collectDepotKeys depots = .error (.missingKey depotId) := by
  induction depots with
  | nil => simp at h
  | cons p rest ih =>
    obtain ⟨depotId, k⟩ := p
    cases k with
    | none => exact ⟨depotId, List.mem_cons_self _ _, rfl⟩
    | some key =>
      obtain ⟨q, hq, hq2⟩ := h
      rcases List.mem_cons.mp hq with rfl | hq'
      · simp at hq2
      · obtain ⟨depotId', hmem, herr⟩ := ih ⟨q, hq', hq2⟩
        exact ⟨depotId', List.mem_cons_of_mem _ hmem,
          by simp [collectDepotKeys, herr]⟩

/-- Claim C6: for a `Key.vdf` artifact whose parsed `depots` section has
some entry lacking the `DecryptionKey` field, `get_manifest` fails with an
error naming an offending entry — the first such — and never returns any
(even partial) list of depot records. -/
theorem C6_missing_decryption_key_fatal (saveExists : Bool)
    (depots : List (String × Option String))
    (h : ∃ p ∈ depots, p.2 = none) :
    ∃ depotId, (depotId, (none : Option String)) ∈ depots ∧
      get_manifest "Key.vdf" saveExists (.parsed depots) =
        .error (.missingKey depotId) ∧
      ∀ l, get_manifest "Key.vdf" saveExists (.parsed depots) ≠ .ok l := by
  obtain ⟨depotId, hmem, herr⟩ := collectDepotKeys_missing depots h
  have hred : get_manifest "Key.vdf" saveExists (.parsed depots) =
      collectDepotKeys depots := rfl
  refine ⟨depotId, hmem, ?_, ?_⟩
  · rw [hred, herr]
  · intro l hl
    rw [hred, herr] at hl
    exact Except.noConfusion hl

/-- Witness for C6, realising the spec scenario: a `depots` dict whose
entry `123` lacks `DecryptionKey`. -/
theorem C6_missing_decryption_key_fatal_witness :
    ∃ depotId, (depotId, (none : Option String)) ∈
        [("123", (none : Option String))] ∧
      get_manifest "Key.vdf" false (.parsed [("123", none)]) =
        .error (.missingKey depotId) ∧
      ∀ l, get_manifest "Key.vdf" false (.parsed [("123", none)]) ≠ .ok l :=
  C6_missing_decryption_key_fatal false [("123", none)]
    ⟨("123", none), List.mem_cons_self _ _, rfl⟩

/-! ## Slot allocation (`common/unlock.py`, `greenluma_add`)

The `AppList` directory is an association list from file name to file
content.  The `try` body of `greenluma_add` is written to first delete
every `*.txt` file, then scan the directory into `depot_dict`, then for
each requested value not already among the assigned values write a new
`<index>.txt` file.  That body, however, never runs past line 89: it
iterates the directory with `async for file in aios.scandir(...)`, and
`aiofiles.os.scandir` is a plain coroutine function (`wrap(os.scandir)`),
not an async iterator — the coroutine object has no `__aiter__`, so the
`async for` raises `TypeError` before yielding a single entry.  The
`except Exception` clause (line 121) catches it, logs, and returns
`False`; no file is deleted or written (`await aios.makedirs(...)` on
line 86 does run but only ensures the directory exists).

`greenluma_add` below is the function as it executes.  The
`greenluma_add_body` definitions that follow embed the delete/scan/
allocate logic of lines 88-115 as written — the behavior the body would
have if the directory iteration worked — which is unreachable in the
program.  The third result component records the (index, value) writes
performed, in order. -/

/-- `pathlib.Path(name).stem`: the file name without its last suffix
(a leading dot alone is not a suffix). -/
def pyStem (name : String) : String :=
  match name.splitOn "." with
  | [] => name
  | [_] => name
  | parts =>
    if parts.headD "" = "" && parts.length == 2 then name
    else String.intercalate "." parts.dropLast

/-- `str.isdecimal()` on the ASCII digits used for slot indices. -/
def pyIsDecimal (s : String) : Bool :=
  s ≠ "" && s.data.all Char.isDigit

/-- Delete every `*.txt` file (lines 89-91 of `common/unlock.py`, as
written; unreachable — see the section comment). -/
def cleanTxt (dir : List (String × String)) : List (String × String) :=
  dir.filter fun f => !(strEndsWith f.1 ".txt")

/-- Rebuild `depot_dict` from the directory (lines 94-101): for each
`*.txt` file whose stem is decimal, map the numeric stem to the parsed
content; an unparseable content makes `int(...)` raise (caught by the
function's generic handler). -/
def scanSlots : List (String × String) → Except PyErr (List (Nat × Int))
  | [] => .ok []
  | (name, content) :: rest =>
    if strEndsWith name ".txt" then
      if pyIsDecimal (pyStem name) then
        match content.trim.toInt? with
        | some v =>
          match scanSlots rest with
          | .ok l => .ok (((pyStem name).toNat?.getD 0, v) :: l)
          | .error e => .error e
        | none => .error (.otherError "ValueError")
      else scanSlots rest
    else scanSlots rest

/-- `index = max(depot_dict.keys(), default=-1) + 1` (over `Nat`: `0` for
an empty dict). -/
def maxKeyPlusOne (dict : List (Nat × Int)) : Nat :=
  match dict with
  | [] => 0
  | _ => (dict.map Prod.fst).foldl max 0 + 1

/-- The `while index in depot_dict: index += 1` bump.  The fuel
`keys.length + 1` suffices: among any `keys.length + 1` consecutive
candidates one is free. -/
def bumpFrom (keys : List Nat) : Nat → Nat → Nat
  | 0, i => i
  | fuel + 1, i => if i ∈ keys then bumpFrom keys fuel (i + 1) else i

/-- Lines 107-109 of `common/unlock.py`: the starting candidate is one
past the maximum occupied index, then bump past collisions (which cannot
occur from that start). -/
def freshIndex (dict : List (Nat × Int)) : Nat :=
  bumpFrom (dict.map Prod.fst) (dict.length + 1) (maxKeyPlusOne dict)

/-- The `for depot_id in map(int, depot_id_list):` loop (lines 104-115):
skip values already assigned, otherwise write `<index>.txt` with the
value and record it in `depot_dict`.  Returns the final dict, the final
directory, and the ordered write log. -/
def allocLoop : List Int → List (Nat × Int) → List (String × String) →
    List (Nat × Int) × List (String × String) × List (Nat × Int)
  | [], dict, dir => (dict, dir, [])
  | v :: vs, dict, dir =>
    if v ∈ dict.map Prod.snd then allocLoop vs dict dir
    else
      let idx := freshIndex dict
      let r := allocLoop vs (dict ++ [(idx, v)])
        (alSet dir (toString idx ++ ".txt") (toString v))
      (r.1, r.2.1, (idx, v) :: r.2.2)

/-- The `try` body of `greenluma_add` (lines 85-117) as written: clean
the `*.txt` files, rescan, allocate.  Returns (result, final directory,
write log).  This path is unreachable in the program: line 89 raises
`TypeError` before the first loop yields an entry (see the section
comment). -/
def greenluma_add_body (dir : List (String × String)) (depotIds : List Int) :
    Bool × List (String × String) × List (Nat × Int) :=
  match scanSlots (cleanTxt dir) with
  | .error _ => (false, cleanTxt dir, [])
  | .ok dict =>
    let r := allocLoop depotIds dict (cleanTxt dir)
    (true, r.2.1, r.2.2)

/-- `greenluma_add` (`common/unlock.py`, lines 77-123) as it actually
executes: a missing installation path returns `False` (lines 79-81);
otherwise the `async for file in aios.scandir(...)` on line 89 raises
`TypeError` (a coroutine has no `__aiter__`), which the
`except Exception` clause turns into `False`
(`greenluma_add_on_exc (.otherError _) = .ok false`) — before any `*.txt`
file has been deleted, read, or written.  Every call therefore returns
`False` and leaves the directory's files unchanged, with an empty write
log. -/
def greenluma_add (steamOk : Bool) (dir : List (String × String)) (depotIds : List Int) :
    Bool × List (String × String) × List (Nat × Int) :=
  if !steamOk then (false, dir, [])
  else (false, dir, [])

/-- Requested values with first occurrences kept, those already in `seen`
dropped — the order in which `allocLoop` actually assigns values. -/
def pyDedupFrom (seen : List Int) : List Int → List Int
  | [] => []
  | v :: vs => if v ∈ seen then pyDedupFrom seen vs else v :: pyDedupFrom (seen ++ [v]) vs

/-- The values of `l` indexed consecutively from `i`. -/
def enumFromIdx (i : Nat) : List Int → List (Nat × Int)
  | [] => []
  | v :: vs => (i, v) :: enumFromIdx (i + 1) vs

theorem scanSlots_cleanTxt (dir : List (String × String)) :
    scanSlots (cleanTxt dir) = .ok [] := by
  induction dir with
  | nil => rfl
  | cons f rest ih =>
    obtain ⟨n, c⟩ := f
    by_cases h : strEndsWith n ".txt" = true
    · simpa [cleanTxt, List.filter_cons, h] using ih
    · simp only [cleanTxt, List.filter_cons, h, Bool.not_false, if_true]
      simpa [scanSlots, h, cleanTxt] using ih

theorem foldl_max_range (m : Nat) : (List.range (m + 1)).foldl max 0 = m := by
  induction m with
  | zero => rfl
  | succ m ih =>
    rw [List.range_succ, List.foldl_append, ih]
    simp [Nat.max_eq_right (Nat.le_succ m)]

theorem freshIndex_of_range (dict : List (Nat × Int))
    (hkeys : dict.map Prod.fst = List.range dict.length) :
    freshIndex dict = dict.length := by
  cases dict with
  | nil => rfl
  | cons p rest =>
    simp only [List.length_cons] at hkeys ⊢
    have hmax : maxKeyPlusOne (p :: rest) = rest.length + 1 := by
      show (List.map Prod.fst (p :: rest)).foldl max 0 + 1 = rest.length + 1
      rw [hkeys, foldl_max_range]
    have hnotmem : rest.length + 1 ∉ List.range (rest.length + 1) := by
      simp [List.mem_range]
    show bumpFrom (List.map Prod.fst (p :: rest)) (rest.length + 1 + 1)
      (maxKeyPlusOne (p :: rest)) = rest.length + 1
    rw [hmax, hkeys]
    show (if rest.length + 1 ∈ List.range (rest.length + 1) then
        bumpFrom (List.range (rest.length + 1)) (rest.length + 1) (rest.length + 1 + 1)
      else rest.length + 1) = rest.length + 1
    rw [if_neg hnotmem]

theorem allocLoop_writes (vs : List Int) :
    ∀ (dict : List (Nat × Int)) (dir : List (String × String)),
      dict.map Prod.fst = List.range dict.length →
      (allocLoop vs dict dir).2.2 =
        enumFromIdx dict.length (pyDedupFrom (dict.map Prod.snd) vs) := by
  induction vs with
  | nil =>
    intro dict dir hkeys
    rfl
  | cons v vs' ih =>
    intro dict dir hkeys
    by_cases hv : v ∈ dict.map Prod.snd
    · simp only [allocLoop, hv, if_pos, pyDedupFrom]
      exact ih dict dir hkeys
    · have hidx : freshIndex dict = dict.length := freshIndex_of_range dict hkeys
      have hlen2 : (dict ++ [(freshIndex dict, v)]).length = dict.length + 1 := by simp
      have hkeys2 : (dict ++ [(freshIndex dict, v)]).map Prod.fst =
          List.range (dict ++ [(freshIndex dict, v)]).length := by
        rw [hlen2, List.range_succ, List.map_append, hkeys, hidx]
        rfl
      have hseen2 : (dict ++ [(freshIndex dict, v)]).map Prod.snd =
          dict.map Prod.snd ++ [v] := by
        rw [List.map_append]
        rfl
      have hrec := ih (dict ++ [(freshIndex dict, v)])
        (alSet dir (toString (freshIndex dict) ++ ".txt") (toString v)) hkeys2
      simp only [allocLoop, hv, if_neg, if_false, pyDedupFrom, enumFromIdx]
      rw [hrec, hseen2, hlen2, hidx]

theorem mem_enumFromIdx (l : List Int) :
    ∀ (i : Nat) (j : Nat) (v : Int), (j, v) ∈ enumFromIdx i l → i ≤ j ∧ j < i + l.length := by
  induction l with
  | nil =>
    intro i j v h
    simp [enumFromIdx] at h
  | cons w ws ih =>
    intro i j v h
    rcases List.mem_cons.mp h with heq | hmem
    · obtain ⟨rfl, -⟩ := Prod.mk.inj heq
      simp
    · obtain ⟨h1, h2⟩ := ih (i + 1) j v hmem
      constructor
      · omega
      · simp only [List.length_cons]
        omega

theorem enumFromIdx_surj (l : List Int) :
    ∀ (i : Nat) (j : Nat), i ≤ j → j < i + l.length → ∃ w, (j, w) ∈ enumFromIdx i l := by
  induction l with
  | nil =>
    intro i j h1 h2
    simp at h2
    omega
  | cons w ws ih =>
    intro i j h1 h2
    rcases Nat.eq_or_lt_of_le h1 with rfl | hlt
    · exact ⟨w, List.mem_cons_self _ _⟩
    · obtain ⟨x, hx⟩ := ih (i + 1) j hlt (by simp at h2 ⊢; omega)
      exact ⟨x, List.mem_cons_of_mem _ hx⟩

theorem pyDedupFrom_count (vs : List Int) :
    ∀ (seen : List Int) (v : Int),
      ((pyDedupFrom seen vs).filter (fun w => w = v)).length =
        if v ∈ seen then 0 else if v ∈ vs then 1 else 0 := by
  induction vs with
  | nil =>
    intro seen v
    simp [pyDedupFrom]
  | cons w ws ih =>
    intro seen v
    by_cases hw : w ∈ seen
    · rw [show pyDedupFrom seen (w :: ws) = pyDedupFrom seen ws from by
        simp [pyDedupFrom, hw]]
      rw [ih seen v]
      by_cases hv : v ∈ seen
      · simp [hv]
      · have hvw : v ≠ w := fun h => hv (h ▸ hw)
        simp [hv, List.mem_cons, hvw]
    · rw [show pyDedupFrom seen (w :: ws) = w :: pyDedupFrom (seen ++ [w]) ws from by
        simp [pyDedupFrom, hw]]
      rw [List.filter_cons]
      by_cases hvw : w = v
      · subst hvw
        have hmem : w ∈ seen ++ [w] := by simp
        rw [if_pos (by simp : decide (w = w) = true), List.length_cons,
          ih (seen ++ [w]) w]
        simp [hmem, hw]
      · rw [if_neg (by simp [hvw] : ¬decide (w = v) = true), ih (seen ++ [w]) v]
        by_cases hv : v ∈ seen
        · have hm : v ∈ seen ++ [w] := by simp [hv]
          simp [hvw, hm, hv]
        · have hvw' : v ≠ w := fun h => hvw h.symm
          have hnot : v ∉ seen ++ [w] := by
            simp only [List.mem_append, List.mem_singleton]
            rintro (h | h)
            · exact hv h
            · exact hvw h.symm
          simp [hvw, hnot, hv, List.mem_cons, hvw']

theorem enumFromIdx_filter_snd (l : List Int) :
    ∀ (i : Nat) (v : Int),
      ((enumFromIdx i l).filter (fun p => p.2 = v)).length =
        (l.filter (fun w => w = v)).length := by
  induction l with
  | nil => intro i v; rfl
  | cons w ws ih =>
    intro i v
    simp only [enumFromIdx, List.filter_cons]
    by_cases hw : w = v
    · simp [hw, ih (i + 1) v]
    · simp [hw, ih (i + 1) v]

/-- The write log of the (unreachable) `try` body: the requested values,
first occurrences only, at consecutive indices from `0`. -/
theorem greenluma_add_body_writes (dir : List (String × String)) (vs : List Int) :
    (greenluma_add_body dir vs).1 = true ∧
    (greenluma_add_body dir vs).2.2 = enumFromIdx 0 (pyDedupFrom [] vs) := by
  have hscan := scanSlots_cleanTxt dir
  have halloc := allocLoop_writes vs [] (cleanTxt dir) rfl
  constructor
  · simp only [greenluma_add_body, hscan]
  · simp only [greenluma_add_body, hscan]
    simpa using halloc

/-- The (unreachable) `try` body would behave exactly as the spec's
allocator describes: with the view rebuilt empty after the `*.txt`
cleanup, every write lands at the smallest index not yet used by the
view — index `j` with all of 0 … j-1 allocated by earlier writes of the
same call — and duplicate values are written exactly once. -/
theorem greenluma_add_body_spec (dir : List (String × String)) (vs : List Int) :
    (greenluma_add_body dir vs).1 = true ∧
    (greenluma_add_body dir vs).2.2 = enumFromIdx 0 (pyDedupFrom [] vs) ∧
    (∀ j v, (j, v) ∈ (greenluma_add_body dir vs).2.2 →
      ∀ i, i < j → ∃ w, (i, w) ∈ (greenluma_add_body dir vs).2.2) ∧
    (∀ v, (((greenluma_add_body dir vs).2.2).filter (fun p => p.2 = v)).length =
      if v ∈ vs then 1 else 0) := by
  obtain ⟨h1, h2⟩ := greenluma_add_body_writes dir vs
  refine ⟨h1, h2, ?_, ?_⟩
  · intro j v hj i hij
    rw [h2] at hj ⊢
    have hb := mem_enumFromIdx _ _ _ _ hj
    exact enumFromIdx_surj _ 0 i (Nat.zero_le _) (by omega)
  · intro v
    rw [h2, enumFromIdx_filter_snd, pyDedupFrom_count]
    simp

/-- Claim C9 (bug evidence): at the claim's own scenario input —
`allocate([5, 7])` on an empty slot directory — the function as it
executes returns `False` with no write at all (neither `0.txt` nor
`1.txt` exists afterwards), because the directory iteration on line 89
raises `TypeError`; the unreachable `try` body, which implements the
spec's allocator, would have created `0.txt` containing 5 and `1.txt`
containing 7 at the lowest free indices. -/
theorem C9_scandir_typeerror_no_slot_files :
    greenluma_add true [] [5, 7] = (false, [], []) ∧
    alLookup (greenluma_add true [] [5, 7]).2.1 "0.txt" = none ∧
    alLookup (greenluma_add true [] [5, 7]).2.1 "1.txt" = none ∧
    greenluma_add_body [] [5, 7] =
      (true, [("0.txt", "5"), ("1.txt", "7")], [(0, 5), (1, 7)]) :=
  ⟨rfl, rfl, rfl, rfl⟩

/-- Counterexample to claim C10 as stated: calling `allocate([5])` twice
on an empty slot directory does not result in exactly one slot file
mapping to 5 — both calls return `False` having written nothing, so zero
slot files map to 5 after both calls. -/
theorem C10_counterexample :
    greenluma_add true (greenluma_add true [] [(5 : Int)]).2.1 [5] =
      (false, [], []) ∧
    ((greenluma_add true (greenluma_add true [] [(5 : Int)]).2.1 [5]).2.1.filter
      (fun f => f.2 = toString (5 : Int))).length = 0 :=
  ⟨rfl, rfl⟩

/-- Claim C10 as amended: every `greenluma_add` call fails before
touching a slot file — the `async for` over the `aiofiles.os.scandir`
coroutine raises `TypeError`, the generic handler returns `False` — so
every existing slot file is indeed left untouched and no duplicate file
is ever written, but calling `allocate([v])` twice leaves zero (not one)
slot files mapping to `v`: the call returns `False`, the directory is
unchanged, and the write log is empty. -/
theorem C10_amended_no_writes :
    ∀ (steamOk : Bool) (dir : List (String × String)) (vs : List Int),
      greenluma_add steamOk dir vs = (false, dir, []) := by
  intro steamOk dir vs
  cases steamOk <;> rfl

end Onekey
